import Mathlib

/-!
Shallow embedding of the core of the `spaced` node (files `node/src/source.rs`
and `node/src/wallets.rs`): the Bitcoin JSON-RPC client with its retry and
broadcast loops, the parallel block fetcher's in-order emission routine, the
wallet sync actor's block application and mismatch recovery, the recipient
resolver, the batch transaction broadcaster, the fee-message heuristic and the
joint balance computation.  Effectful Rust code is embedded as pure functions
over oracles describing the outcomes of the I/O it performs (one oracle entry
per RPC attempt, etc.); machine integers are `Nat`/`Int`.
-/

namespace Spaced

/-! ## RPC error model (`source.rs`)

`reqwest::Error` (`Transport`) is represented by the observations the code
makes on it: `is_timeout()`, `is_connect()` and `status()`.  HTTP status codes
are `Nat`s.  -/

/-- Model of `JsonRpcError` (fields `code`, `message`) from `source.rs`. -/
structure JsonRpcError where
  code : Int
  message : String
  deriving Repr, DecidableEq

/-- The observable part of a `reqwest::Error`: the three probes
`is_timeout()`, `is_connect()` and `status()` that `is_temporary` performs. -/
structure TransportError where
  is_timeout : Bool
  is_connect : Bool
  status : Option Nat
  deriving Repr, DecidableEq

/-- Model of `BitcoinRpcError` from `source.rs`: `Rpc`, `Transport` or `Other`. -/
inductive BitcoinRpcError where
  | Rpc (e : JsonRpcError)
  | Transport (e : TransportError)
  | Other (s : String)
  deriving Repr, DecidableEq

/-- The `BITCOIN_RPC_IN_WARMUP` constant (`source.rs`). -/
def BITCOIN_RPC_IN_WARMUP : Int := -28

/-- The `BITCOIN_RPC_CLIENT_NOT_CONNECTED` constant (`source.rs`). -/
def BITCOIN_RPC_CLIENT_NOT_CONNECTED : Int := -9

/-- The `BITCOIN_RPC_CLIENT_IN_INITIAL_DOWNLOAD` constant (`source.rs`). -/
def BITCOIN_RPC_CLIENT_IN_INITIAL_DOWNLOAD : Int := -10

/-- Model of `BitcoinRpcError::is_temporary` from `source.rs`.  Transport errors are
temporary on timeout/connect failure or one of six HTTP statuses
(408 REQUEST_TIMEOUT, 429 TOO_MANY_REQUESTS, 500 INTERNAL_SERVER_ERROR,
502 BAD_GATEWAY, 503 SERVICE_UNAVAILABLE, 504 GATEWAY_TIMEOUT); RPC errors
on the three warmup/IBD/not-connected codes; `Other` never. -/
def BitcoinRpcError.is_temporary : BitcoinRpcError → Bool
  | .Transport e =>
      if e.is_timeout || e.is_connect then true
      else match e.status with
        | some s =>
            if s = 408 || s = 429 || s = 500 || s = 502 || s = 503 || s = 504
            then true else false
        | none => false
  | .Rpc e =>
      e.code = BITCOIN_RPC_IN_WARMUP ||
      e.code = BITCOIN_RPC_CLIENT_IN_INITIAL_DOWNLOAD ||
      e.code = BITCOIN_RPC_CLIENT_NOT_CONNECTED
  | .Other _ => false

/-! ## `send_json_blocking` retry loop (`source.rs`)

The loop matches on `send_request_blocking` alone: its outcome at the
`attempt`-th try is the oracle `attempts : Nat → Except BitcoinRpcError R`
(in the program every such error is `Transport`, via `From<reqwest::Error>`,
though the embedding does not rely on that).  On a request success the code
returns `res.error_for_rpc()` unconditionally — parsing of the response body
is the oracle `error_for_rpc : R → Except BitcoinRpcError A`, and any error
it yields (all `Rpc`-coded errors, or a transport error from body decoding)
is returned immediately, never retried.  The embedding returns the result
together with the list of sleep durations (milliseconds) performed between
attempts, so the backoff schedule is part of the observable behaviour. -/

/-- The `max_retries` constant in `send_json_blocking` (`source.rs`). -/
def max_retries : Nat := 5

/-- One step of the `for attempt in 0..max_retries` loop of
`send_json_blocking`: `attempt` is the current index, `delay` the current
backoff in ms, `sleeps` the sleeps performed so far (in order),
`last_error` the saved temporary error.  The `Ok` arm of the match is
`return res.error_for_rpc()` — an unconditional return of the parsed
response. -/
def send_json_blocking.loop {R A : Type} (attempts : Nat → Except BitcoinRpcError R)
    (error_for_rpc : R → Except BitcoinRpcError A) :
    (fuel : Nat) → (attempt : Nat) → (delay : Nat) → (sleeps : List Nat) →
    (last_error : Option BitcoinRpcError) →
    (Except BitcoinRpcError A) × List Nat
  | 0, _, _, sleeps, last_error =>
      -- loop exhausted: `last_error.expect("an error")`; the `for` loop only
      -- runs out after at least one retry, so `last_error` is populated.
      (Except.error (last_error.getD (.Other "an error")), sleeps)
  | fuel + 1, attempt, delay, sleeps, last_error =>
      match attempts attempt with
      | .ok res => (error_for_rpc res, sleeps)
      | .error e =>
          if e.is_temporary && attempt < max_retries - 1 then
            send_json_blocking.loop attempts error_for_rpc fuel (attempt + 1)
              (delay * 2) (sleeps ++ [delay]) (some e)
          else
            (.error e, sleeps)

/-- Model of `BitcoinRpc::send_json_blocking` from `source.rs`, with the
initial 20 ms delay and `max_retries = 5`: retry over the HTTP request
stage, then parse the first successful response. -/
def send_json_blocking {R A : Type} (attempts : Nat → Except BitcoinRpcError R)
    (error_for_rpc : R → Except BitcoinRpcError A) :
    (Except BitcoinRpcError A) × List Nat :=
  send_json_blocking.loop attempts error_for_rpc max_retries 0 20 [] none

/-- Request outcomes for the C3 witness: one temporary transport timeout,
then an HTTP success carrying payload 7. -/
def retryWitnessOracle : Nat → Except BitcoinRpcError Nat := fun n =>
  if n = 0 then .error (.Transport ⟨true, false, none⟩) else .ok 7

/-- Response parsing for the C3 witness: every body parses to its payload. -/
def retryWitnessParse : Nat → Except BitcoinRpcError Nat := fun r => .ok r

/-- Request outcomes for the C3 counterexample, first scenario: every HTTP
request succeeds (response `n` at attempt `n`). -/
def warmupResponses : Nat → Except BitcoinRpcError Nat := fun n => .ok n

/-- Response parsing for the C3 counterexample, first scenario: the first
response body carries the RPC warm-up error −28 (a *temporary* error per
`is_temporary`), the next one the successful payload 42. -/
def warmupParse : Nat → Except BitcoinRpcError Nat := fun r =>
  if r = 0 then .error (.Rpc ⟨-28, "warming up"⟩) else .ok 42

/-- Request outcomes for the C3 counterexample, second scenario: 5 straight
temporary transport timeouts, then an HTTP success. -/
def fiveTempOracle : Nat → Except BitcoinRpcError Nat := fun n =>
  if n < 5 then .error (.Transport ⟨true, false, none⟩) else .ok 42

/-! ## `broadcast_tx` (`source.rs`)

`broadcast_tx` first submits via `sendrawtransaction` (whose overall outcome
— after `send_json_blocking`'s internal retries — is the oracle `sendraw`),
then polls `getmempoolentry` up to 10 times; `poll i` is the outcome of the
`i`-th poll, where `.ok (some t)` is a successful response carrying a numeric
`time` field `t`, `.ok none` a successful response lacking it, and `.error e`
a failed poll.  The Rust `last_error.expect("an error")` panic is a distinct
outcome of the embedding. -/

/-- Possible outcomes of `broadcast_tx`: a `ConfirmationTime::Unconfirmed`
with its `last_seen` time, an error return, or the
`last_error.expect("an error")` panic. -/
inductive BroadcastResult where
  | ok (last_seen : Nat)
  | err (e : BitcoinRpcError)
  | panicExpect
  deriving Repr, DecidableEq

/-- The `while retry_count < MAX_RETRIES` poll loop of `broadcast_tx`. -/
def broadcast_tx.go (poll : Nat → Except BitcoinRpcError (Option Nat)) :
    (fuel : Nat) → (retry_count : Nat) → (last_error : Option BitcoinRpcError) →
    BroadcastResult
  | 0, _, last_error =>
      match last_error with
      | some e => .err e
      | none => .panicExpect
  | fuel + 1, retry_count, last_error =>
      match poll retry_count with
      | .ok (some time) => .ok time
      | .ok none => broadcast_tx.go poll fuel (retry_count + 1) last_error
      | .error e => broadcast_tx.go poll fuel (retry_count + 1) (some e)

/-- Model of `BitcoinRpc::broadcast_tx` from `source.rs` (`MAX_RETRIES = 10`). -/
def broadcast_tx (sendraw : Except BitcoinRpcError String)
    (poll : Nat → Except BitcoinRpcError (Option Nat)) : BroadcastResult :=
  match sendraw with
  | .error e => .err e
  | .ok _txid => broadcast_tx.go poll 10 0 none

/-! ## Block fetcher (`source.rs`)

`RpcBlockId` is `{ height: u32, hash: BlockHash }`; hashes are opaque 32-byte
values, modelled as `Nat`.  A worker at height `h` performs
`getblockhash(h)` then `getblock(hash)`; `FetchedBlock` packages the two
pieces of its result the supervisor inspects: the hash returned by
`getblockhash` and the block's `header.prev_blockhash`.  The oracle
`fetch : Nat → FetchedBlock` describes a run in which every worker fetch
succeeds (a failing fetch aborts `run_workers` with `RpcError`, outside the
ordering claims).  Although workers run concurrently, emission is
deterministic: results are buffered in the height-keyed `parsed_blocks` map
and emitted only at `next_emit_height`, so the emission sequence equals the
sequential walk modelled here. -/

/-- Model of `RpcBlockId` (fields `height`, `hash`) from `source.rs`. -/
structure RpcBlockId where
  height : Nat
  hash : Nat
  deriving Repr, DecidableEq

/-- Model of `BlockFetchError` from `source.rs`. -/
inductive BlockFetchError where
  | RpcError (e : BitcoinRpcError)
  | BlockMismatch
  | ChannelClosed
  deriving Repr, DecidableEq

/-- The result of one worker: the hash `getblockhash(h)` returned and the
fetched block's `header.prev_blockhash`. -/
structure FetchedBlock where
  hash : Nat
  prev_blockhash : Nat
  deriving Repr, DecidableEq

/-- The in-order emission loop of `BlockFetcher::run_workers`: starting at
`next_emit_height = h` with `previous_hash = prev`, every block must satisfy
`block.header.prev_blockhash == previous_hash` to be emitted (as
`BlockEvent::Block(id, block)`, appended to `acc`); a mismatch returns
`BlockMismatch` without emitting; exhausting the heights returns
`Ok(RpcBlockId { height: next_emit_height - 1, hash: previous_hash })`. -/
def run_workers.go (fetch : Nat → FetchedBlock) :
    (fuel : Nat) → (h : Nat) → (prev : Nat) →
    (acc : List (RpcBlockId × FetchedBlock)) →
    List (RpcBlockId × FetchedBlock) × Except BlockFetchError RpcBlockId
  | 0, h, prev, acc => (acc, .ok ⟨h - 1, prev⟩)
  | fuel + 1, h, prev, acc =>
      let b := fetch h
      if b.prev_blockhash ≠ prev then (acc, .error .BlockMismatch)
      else run_workers.go fetch fuel (h + 1) b.hash (acc ++ [(⟨h, b.hash⟩, b)])

/-- Model of `BlockFetcher::run_workers` from `source.rs`: process heights
`start_block.height + 1 .. end_height`, returning the list of emitted
`Block` events and the final result. -/
def run_workers (fetch : Nat → FetchedBlock) (start_block : RpcBlockId)
    (end_height : Nat) :
    List (RpcBlockId × FetchedBlock) × Except BlockFetchError RpcBlockId :=
  run_workers.go fetch (end_height - start_block.height) (start_block.height + 1)
    start_block.hash []

/-- The hash the next in-order block must extend: `previous_hash` after the
events in `l` have been emitted starting from `prev`. -/
def endHash (prev : Nat) : List (RpcBlockId × FetchedBlock) → Nat
  | [] => prev
  | e :: rest => endHash e.1.hash rest

/-- A remote chain whose block at height `n` has hash `n` and parent hash
`n - 1`, for the witness. -/
def chainOracle : Nat → FetchedBlock := fun n => ⟨n, n - 1⟩

/-! ## Fee rates and the fee-message heuristic (`wallets.rs`)

`bitcoin::FeeRate` stores sat/kwu.  `from_sat_per_vb` multiplies by 250 with
a `u64` overflow check; `to_sat_per_vb_ceil` is `(sat_kwu * 4 + 999) / 1000`.
Rust string operations are modelled over `String`/`List Char`:
`str::contains(pat)` is substring containment, `split(';')`/`split("<=")` are
`String.splitOn`, `split_whitespace` is split-on-whitespace dropping empty
tokens, and `parse::<f64>` is modelled as exact decimal/scientific parsing
into `ℚ` (the claims only evaluate it on short decimal literals, where the
`f64` value truncates to the same integer); `as u64` truncates toward zero,
clamping negatives to 0 and saturating at `u64::MAX`. -/

/-- Model of `bitcoin::FeeRate`: a fee rate in sat/kwu. -/
structure FeeRate where
  sat_kwu : Nat
  deriving Repr, DecidableEq

/-- Model of `FeeRate::from_sat_per_vb`: `sat_vb * 250` sat/kwu, `None` on `u64`
overflow. -/
def FeeRate.from_sat_per_vb (sat_vb : Nat) : Option FeeRate :=
  if sat_vb * 250 ≤ 2 ^ 64 - 1 then some ⟨sat_vb * 250⟩ else none

/-- Model of `FeeRate::to_sat_per_vb_ceil`. -/
def FeeRate.to_sat_per_vb_ceil (r : FeeRate) : Nat :=
  (r.sat_kwu * 4 + 999) / 1000

/-- Substring containment on character lists: `needle` occurs contiguously in
`hay`. -/
def listContainsSub (needle hay : List Char) : Bool :=
  (List.range (hay.length + 1)).any (fun i => needle.isPrefixOf (hay.drop i))

/-- Rust `str::contains(pat)` for a string pattern. -/
def strContains (s pat : String) : Bool :=
  listContainsSub pat.data s.data

/-- Splitting a character list at every occurrence of a (non-empty)
separator, fuelled structurally so kernel reduction works; `fuel ≥ s.length`
makes the fuel-exhausted branch unreachable. -/
def splitOnSubFuel (sep : List Char) :
    (fuel : Nat) → (s : List Char) → (acc : List Char) → List (List Char)
  | 0, s, acc => [acc.reverse ++ s]
  | _ + 1, [], acc => [acc.reverse]
  | fuel + 1, c :: rest, acc =>
      if sep.isPrefixOf (c :: rest) then
        acc.reverse :: splitOnSubFuel sep fuel ((c :: rest).drop sep.length) []
      else
        splitOnSubFuel sep fuel rest (c :: acc)

/-- Rust `str::split(sep)` for a non-empty string separator (as
`String.splitOn`, but kernel-reducible). -/
def splitOnStr (s sep : String) : List String :=
  (splitOnSubFuel sep.data s.data.length s.data []).map (fun l => ⟨l⟩)

/-- Splitting a character list at every character satisfying `p`. -/
def splitByPred (p : Char → Bool) : (s : List Char) → (acc : List Char) → List (List Char)
  | [], acc => [acc.reverse]
  | c :: rest, acc =>
      if p c then acc.reverse :: splitByPred p rest []
      else splitByPred p rest (c :: acc)

/-- Rust `str::trim()`: strip whitespace from both ends. -/
def strTrim (s : String) : String :=
  ⟨(((s.data.dropWhile Char.isWhitespace).reverse).dropWhile Char.isWhitespace).reverse⟩

/-- Rust `str::split_whitespace()`: split on whitespace, dropping empty
tokens. -/
def splitWhitespace (s : String) : List String :=
  ((splitByPred Char.isWhitespace s.data []).map (fun l => (⟨l⟩ : String))).filter
    (fun t => t ≠ "")

/-- Numeric value of a digit run. -/
def digitsVal (ds : List Char) : Nat :=
  ds.foldl (fun a c => a * 10 + (c.toNat - 48)) 0

/-- Exact-value parser for the decimal/scientific forms accepted by Rust's
`f64::from_str` on the messages at hand: optional sign, digits with an
optional fractional part (at least one digit overall), optional
`e`/`E`-exponent.  Returns the exact value as an unnormalized fraction
`(numerator, positive denominator)` (the claims evaluate the parser only on
short decimal literals, whose `f64` value truncates to the same integer). -/
def parseDecimal (s : String) : Option (Int × Nat) :=
  let (neg, cs) :=
    match s.data with
    | '-' :: rest => (true, rest)
    | '+' :: rest => (false, rest)
    | cs => (false, cs)
  let intPart := cs.takeWhile Char.isDigit
  let afterInt := cs.dropWhile Char.isDigit
  let (fracPart, afterFrac) :=
    match afterInt with
    | '.' :: rest => (rest.takeWhile Char.isDigit, rest.dropWhile Char.isDigit)
    | _ => ([], afterInt)
  if intPart.length + fracPart.length = 0 then none
  else
    let mantNum : Int := (digitsVal intPart * 10 ^ fracPart.length + digitsVal fracPart : Nat)
    let mantDen : Nat := 10 ^ fracPart.length
    let signedNum : Int := if neg then -mantNum else mantNum
    match afterFrac with
    | [] => some (signedNum, mantDen)
    | e :: rest =>
        if e = 'e' ∨ e = 'E' then
          let (eneg, ecs) :=
            match rest with
            | '-' :: r => (true, r)
            | '+' :: r => (false, r)
            | r => (false, r)
          if ecs.length ≠ 0 ∧ ecs.all Char.isDigit then
            if eneg then some (signedNum, mantDen * 10 ^ digitsVal ecs)
            else some (signedNum * 10 ^ digitsVal ecs, mantDen)
          else none
        else none

/-- Rust `as u64` applied to the exact value `num / den` (`den > 0`):
truncate toward zero, clamping negatives to 0 and saturating at
`u64::MAX`. -/
def fracToU64 (num : Int) (den : Nat) : Nat :=
  if num < 0 then 0 else min (num.toNat / den) (2 ^ 64 - 1)

/-- Model of `fee_rate_from_message` from `wallets.rs`: for a message containing
`"insufficient fee, rejecting replacement"`, take the second
semicolon-delimited segment, trim it, split on `"<="`, take the third
whitespace-delimited token of the right-hand side as a BTC/kvB float,
multiply by 100 000 and truncate to a sat/vB fee rate; `None` whenever a
piece is missing or non-numeric. -/
def fee_rate_from_message (message : String) : Option FeeRate :=
  if !(strContains message "insufficient fee, rejecting replacement") then none
  else
    match (splitOnStr message ";").get? 1 with
    | none => none
    | some fee_part =>
        match (splitOnStr (strTrim fee_part) "<=").get? 1 with
        | none => none
        | some old_fee_str =>
            match (splitWhitespace old_fee_str).get? 2 with
            | none => none
            | some tok =>
                match parseDecimal tok with
                | none => none
                | some fee_value =>
                    let fee_rate_sat_vb := fracToU64 (fee_value.1 * 100000) fee_value.2
                    FeeRate.from_sat_per_vb fee_rate_sat_vb

/-! ## Batch transaction broadcast (`wallets.rs`, `batch_tx`)

The broadcast stage of `RpcWallet::batch_tx`: the builder's iterator has
yielded a list of tagged transactions (builder-level failures abort the whole
call before any response is formed and are outside this model); `tagged.raw`
is the hex serialization the code retains for the diagnostic echo.
`broadcastRes i` is the outcome of broadcasting the `i`-th transaction
(`broadcast_tx` composed over the wire), and `insertOk i` whether the
subsequent `insert_tx`/`commit` pair succeeds (a failure there aborts
`batch_tx` with an error, producing no `WalletResponse`).  `BTreeMap`s of
strings are modelled as association lists with insert-or-replace. -/

/-- Model of `TransactionTag` (wallet crate): the tags `batch_tx` inspects or
records. -/
inductive TransactionTag where
  | Bid
  | Open
  | Register
  | Transfer
  | Execute
  | FeeBump
  deriving Repr, DecidableEq

/-- One transaction yielded by the builder iterator: its computed txid, its
tag set and its hex serialization. -/
structure TaggedTx where
  txid : Nat
  tags : List TransactionTag
  raw : String
  deriving Repr, DecidableEq

/-- Model of `BTreeMap::insert`: replace the value at an existing key, else add the
binding. -/
def mapInsert : List (String × String) → String → String → List (String × String)
  | [], k, v => [(k, v)]
  | (k', v') :: rest, k, v =>
      if k' = k then (k, v) :: rest else (k', v') :: mapInsert rest k v

/-- Model of `TxResponse` (fields `txid`, `tags`, `error`) from `wallets.rs`. -/
structure TxResponse where
  txid : Nat
  tags : List TransactionTag
  error : Option (List (String × String))
  deriving Repr, DecidableEq

/-- Model of `WalletResponse` (fields `sent`, `raw`) from `wallets.rs`. -/
structure WalletResponse where
  sent : List TxResponse
  raw : Option (List String)
  deriving Repr, DecidableEq

/-- Debug formatting of a `BitcoinRpcError`, as attached to non-RPC
broadcast failures. -/
def debugFmt : BitcoinRpcError → String
  | .Rpc e => "Rpc(JsonRpcError \x7b code: " ++ toString e.code ++
      ", message: " ++ e.message ++ " \x7d)"
  | .Transport _ => "Transport(reqwest::Error)"
  | .Other s => "Other(" ++ s ++ ")"

/-- The diagnostic `error_data` map `batch_tx` builds for a failed broadcast
of a transaction whose bid status is `is_bid`. -/
def batchErrorData (is_bid : Bool) (e : BitcoinRpcError) : List (String × String) :=
  match e with
  | .Rpc rpc =>
      let d0 : List (String × String) := []
      let d1 :=
        if is_bid && strContains rpc.message "replacement-adds-unconfirmed" then
          mapInsert d0 "hint"
            "If you have don\x27t have confirmed auction outputs, you cannot replace bids in the mempool."
        else d0
      let d2 :=
        if is_bid then
          match fee_rate_from_message rpc.message with
          | some fee_rate =>
              mapInsert d1 "hint"
                ("A competing bid in the mempool; replace with a feerate > " ++
                  toString fee_rate.to_sat_per_vb_ceil ++ " sat/vB.")
          | none => d1
        else d1
      mapInsert (mapInsert d2 "rpc_code" (toString rpc.code)) "message" rpc.message
  | e => mapInsert [] "message" (debugFmt e)

/-- The broadcast loop of `batch_tx` over the remaining transactions:
`i` is the index of the next transaction, `result_set`/`raw_set`/`has_errors`
the accumulated state.  Each transaction is recorded (with its raw hex)
before broadcasting; on a broadcast failure the diagnostic map is attached to
that last result and iteration stops; an `insert_tx`/`commit` failure aborts
the whole call. -/
def batch_tx.go (broadcastRes : Nat → Except BitcoinRpcError Nat)
    (insertOk : Nat → Bool) :
    (txs : List TaggedTx) → (i : Nat) → (result_set : List TxResponse) →
    (raw_set : List String) → (has_errors : Bool) →
    Except String WalletResponse
  | [], _, result_set, raw_set, has_errors =>
      .ok ⟨result_set, if has_errors then some raw_set else none⟩
  | tagged :: rest, i, result_set, raw_set, has_errors =>
      match broadcastRes i with
      | .ok _confirmation =>
          if insertOk i then
            batch_tx.go broadcastRes insertOk rest (i + 1)
              (result_set ++ [⟨tagged.txid, tagged.tags, none⟩])
              (raw_set ++ [tagged.raw]) has_errors
          else .error "wallet insert or commit failed"
      | .error e =>
          .ok ⟨result_set ++ [⟨tagged.txid, tagged.tags,
                some (batchErrorData (tagged.tags.contains TransactionTag.Bid) e)⟩],
               some (raw_set ++ [tagged.raw])⟩

/-- The broadcast stage of `RpcWallet::batch_tx` from `wallets.rs`. -/
def batch_tx (broadcastRes : Nat → Except BitcoinRpcError Nat)
    (insertOk : Nat → Bool) (txs : List TaggedTx) : Except String WalletResponse :=
  batch_tx.go broadcastRes insertOk txs 0 [] [] false

/-! ## Wallet sync actor (`wallets.rs`, `wallet_sync`)

The mismatch-recovery checkpoint scan and the main loop.  The wallet's local
chain checkpoints are listed tip-first (descending height), as
`iter_checkpoints` yields them. -/

/-- The checkpoint scan in `wallet_sync`'s `BlockMismatch` arm:
`iter_checkpoints().find_map(.. tip.height - x.height() > 12 ..)
.unwrap_or(iter_checkpoints().last())`; `none` only when there is no
checkpoint at all (where the code would panic on `expect("a checkpoint")`). -/
def restore_point (wallet_tip_height : Nat) (checkpoints : List RpcBlockId) :
    Option RpcBlockId :=
  match checkpoints.find? (fun x => 12 < wallet_tip_height - x.height) with
  | some x => some x
  | none => checkpoints.getLast?

/-- The claim's reading of the checkpoint scan: the most recent checkpoint
*at least* 12 blocks behind the tip (`tip.height - x.height() ≥ 12`), falling
back to the oldest checkpoint. -/
def restore_point_claimed (wallet_tip_height : Nat) (checkpoints : List RpcBlockId) :
    Option RpcBlockId :=
  match checkpoints.find? (fun x => 12 ≤ wallet_tip_height - x.height) with
  | some x => some x
  | none => checkpoints.getLast?

/-- One input observed by an iteration of the `wallet_sync` main loop. -/
inductive SyncInput where
  | shutdown
  | block (id : RpcBlockId)
  | mismatch
  | fatal
  deriving Repr, DecidableEq

/-- How a `wallet_sync` run ended: clean shutdown (`break` → `Ok(())`), a
fatal fetcher error (`return Err`), or the trace ended with the loop still
running. -/
inductive SyncExit where
  | clean
  | fatal
  | running
  deriving Repr, DecidableEq

/-- The `wallet_sync` main loop of `wallets.rs`, driven by a trace of inputs
(commands do not touch the tip or the commit schedule and are omitted):
a `Block(id, _)` event applies the block, advances `wallet_tip` to `id` and
commits iff `id.height % 12 == 0`; `Error(BlockMismatch)` rewinds
`wallet_tip` to the restore point computed from the local chain's
checkpoints (`cps`, tip-first) and restarts the fetcher; any other fetcher
error terminates the actor; a shutdown signal breaks out — with no commit.
Returns the number of commits performed, how the run ended, and the final
`wallet_tip`. -/
def wallet_sync_loop (cps : List RpcBlockId) :
    List SyncInput → RpcBlockId → Nat → Nat × SyncExit × RpcBlockId
  | [], wallet_tip, commits => (commits, .running, wallet_tip)
  | .shutdown :: _, wallet_tip, commits => (commits, .clean, wallet_tip)
  | .block id :: rest, _, commits =>
      wallet_sync_loop cps rest id
        (if id.height % 12 = 0 then commits + 1 else commits)
  | .mismatch :: rest, wallet_tip, commits =>
      let tip' := (restore_point wallet_tip.height cps).getD wallet_tip
      wallet_sync_loop cps rest tip' commits
  | .fatal :: _, wallet_tip, commits => (commits, .fatal, wallet_tip)

/-! ## Recipient resolver (`wallets.rs`, `resolve`)

The parsers and lookups `resolve` composes live outside this repository
(`bitcoin::Address::from_str`, `SpaceAddress::from_str`, `SName::from_str`,
SHA-256, the state snapshot); they are supplied as an environment of oracles.
Addresses, space names, space hashes and scripts are opaque values modelled
as `Nat`. -/

/-- The external functions `RpcWallet::resolve` calls.
`parseBitcoinAddress` is `Address::from_str` (network-unchecked),
`requireNetwork` its `.require_network(network.fallback_network())` check,
`parseSpaceAddress` is `SpaceAddress::from_str` (its `.0` address),
`parseSName` is `SName::from_str`, `spaceHash` is
`SpaceHash::from(Sha256::hash(sname.to_bytes()))`, `getSpaceInfo` is
`store.get_space_info` yielding the space's `script_pubkey`, and
`addressFromScript` is `Address::from_script(script, network)`. -/
structure ResolveEnv where
  parseBitcoinAddress : String → Option Nat
  requireNetwork : Nat → Except String Nat
  parseSpaceAddress : String → Option Nat
  parseSName : String → Option Nat
  spaceHash : Nat → Nat
  getSpaceInfo : Nat → Except String (Option Nat)

/-- Model of `RpcWallet::resolve` from `wallets.rs`: try a raw bitcoin address
(rejected outright when `require_space_address`), then a space address, then
a space name looked up in the state snapshot by its SHA-256 space-hash;
an unknown space is `Ok(None)`, anything matching no form is an error. -/
def resolve (env : ResolveEnv) (addressFromScript : Nat → Except String Nat)
    (recipient : String) (require_space_address : Bool) : Except String (Option Nat) :=
  match env.parseBitcoinAddress recipient with
  | some address =>
      if require_space_address then .error "recipient must be a space address"
      else
        match env.requireNetwork address with
        | .ok checked => .ok (some checked)
        | .error e => .error e
  | none =>
      match env.parseSpaceAddress recipient with
      | some space_address => .ok (some space_address)
      | none =>
          match env.parseSName recipient with
          | none => .error "recipient must be a valid space name or an address"
          | some sname =>
              match env.getSpaceInfo (env.spaceHash sname) with
              | .error e => .error e
              | .ok none => .ok none
              | .ok (some script_pubkey) =>
                  match addressFromScript script_pubkey with
                  | .ok a => .ok (some a)
                  | .error e => .error e

/-! ## Joint balance (`wallets.rs`, `get_joint_balance`)

The wallet owns two bdk wallets ("coins" and "spaces"), each summarised by
the outputs it tracks.  A tracked output records its keychain, spent flag,
its position class (in-chain immature coinbase, in-chain confirmed, trusted
or untrusted pending — the partition bdk's `balance()` reports) and whether
the state snapshot associates a space with its outpoint
(`store.get_spaceout`, folded into the output as `hasSpace`).
`ConfirmationTime::is_confirmed()` holds for any in-chain output, immature
included.  `Amount` arithmetic is `Nat`; the `-` in `locked` mirrors Rust's
`Amount` subtraction, which panics on underflow (truncated here). -/

/-- Model of `KeychainKind` (bdk): external (receive) or internal (change). -/
inductive KeychainKind where
  | External
  | Internal
  deriving Repr, DecidableEq

/-- The chain position class of a tracked output, as bdk's `balance()`
partitions values. -/
inductive OutClass where
  | Immature
  | Confirmed
  | TrustedPending
  | UntrustedPending
  deriving Repr, DecidableEq

/-- Model of `ConfirmationTime::is_confirmed()`: the output is in a block. -/
def OutClass.is_confirmed : OutClass → Bool
  | .Immature => true
  | .Confirmed => true
  | .TrustedPending => false
  | .UntrustedPending => false

/-- A bdk `LocalOutput` together with the state-snapshot fact `batch_tx`
derives from it (`hasSpace`: `store.get_spaceout(outpoint)` is `Some`). -/
structure WalletOutput where
  value : Nat
  keychain : KeychainKind
  is_spent : Bool
  cls : OutClass
  hasSpace : Bool
  deriving Repr, DecidableEq

/-- Model of bdk's `Balance`. -/
structure Balance where
  immature : Nat
  trusted_pending : Nat
  untrusted_pending : Nat
  confirmed : Nat
  deriving Repr, DecidableEq

/-- Sum of values of a list of outputs. -/
def sumVal (l : List WalletOutput) : Nat :=
  (l.map (fun o => o.value)).sum

/-- Model of bdk's `Wallet::balance()`: per-class sums over the wallet's unspent
outputs. -/
def balanceOf (outs : List WalletOutput) : Balance :=
  { immature := sumVal (outs.filter (fun o => !o.is_spent && o.cls = OutClass.Immature)),
    trusted_pending :=
      sumVal (outs.filter (fun o => !o.is_spent && o.cls = OutClass.TrustedPending)),
    untrusted_pending :=
      sumVal (outs.filter (fun o => !o.is_spent && o.cls = OutClass.UntrustedPending)),
    confirmed := sumVal (outs.filter (fun o => !o.is_spent && o.cls = OutClass.Confirmed)) }

/-- The `coinouts` leg of `get_space_outputs`: unspent external
spaces-keychain outputs for which the state snapshot has no spaceout. -/
def coinouts (spacesOuts : List WalletOutput) : List WalletOutput :=
  (spacesOuts.filter (fun o => o.keychain = KeychainKind.External && !o.is_spent)).filter
    (fun o => !o.hasSpace)

/-- The fold in `get_joint_balance` splitting `coinouts` values into
(confirmed, pending) by `confirmation_time.is_confirmed()`. -/
def coinoutSplit (outs : List WalletOutput) : Nat × Nat :=
  outs.foldl
    (fun balances utxo =>
      if utxo.cls.is_confirmed then (balances.1 + utxo.value, balances.2)
      else (balances.1, balances.2 + utxo.value))
    (0, 0)

/-- Model of `ConfirmedBalance` from `wallets.rs`. -/
structure ConfirmedBalance where
  total : Nat
  spendable : Nat
  immature : Nat
  locked : Nat
  deriving Repr, DecidableEq

/-- Model of `UnconfirmedBalance` from `wallets.rs`. -/
structure UnconfirmedBalance where
  total : Nat
  locked : Nat
  deriving Repr, DecidableEq

/-- Model of `JointBalance` from `wallets.rs`. -/
structure JointBalance where
  confirmed : ConfirmedBalance
  unconfirmed : UnconfirmedBalance
  deriving Repr, DecidableEq

/-- Model of `RpcWallet::get_joint_balance` from `wallets.rs`, over the outputs
tracked by the spaces and coins wallets. -/
def get_joint_balance (spacesOuts coinsOuts : List WalletOutput) : JointBalance :=
  let spaces_confirmed := (coinoutSplit (coinouts spacesOuts)).1
  let spaces_pending := (coinoutSplit (coinouts spacesOuts)).2
  let spaces := balanceOf spacesOuts
  let coins := balanceOf coinsOuts
  { confirmed :=
      { total := spaces_confirmed + spaces.immature + coins.confirmed + coins.immature,
        spendable := spaces_confirmed + coins.confirmed,
        immature := spaces.immature + coins.immature,
        locked := spaces.confirmed - spaces_confirmed },
    unconfirmed :=
      { total := spaces_pending + coins.trusted_pending + coins.untrusted_pending,
        locked := (spaces.untrusted_pending + spaces.trusted_pending) - spaces_pending } }

/-- Sum of all wallet utxos (unspent outputs of both keychains of both
wallets). -/
def sumAllUtxos (spacesOuts coinsOuts : List WalletOutput) : Nat :=
  sumVal (spacesOuts.filter (fun o => !o.is_spent)) +
    sumVal (coinsOuts.filter (fun o => !o.is_spent))

/-! ### Concrete runs used by witnesses -/

/-- Broadcast outcomes for the C2 witness: the first transaction is
accepted, every later one is rejected by the mempool. -/
def batchBroadcastW : Nat → Except BitcoinRpcError Nat := fun n =>
  if n = 0 then .ok 0 else .error (.Rpc ⟨-26, "txn-mempool-conflict"⟩)

/-- A two-transaction batch for the C2 witness. -/
def batchTxsW : List TaggedTx :=
  [⟨1, [TransactionTag.Open], "rawhex0"⟩, ⟨2, [TransactionTag.Transfer], "rawhex1"⟩]

/-- A recipient-resolution environment for the C7 witness: "addr" parses as
a raw bitcoin address valid on the network, "spaceaddr" as a space address,
"known" as a space name whose hash is in the state snapshot, "unknown" as a
space name absent from it, and anything else parses as nothing. -/
def resolveEnvW : ResolveEnv :=
  { parseBitcoinAddress := fun s => if s = "addr" then some 10 else none,
    requireNetwork := fun a => .ok (a + 1),
    parseSpaceAddress := fun s => if s = "spaceaddr" then some 20 else none,
    parseSName := fun s => if s = "known" then some 30
      else if s = "unknown" then some 31 else none,
    spaceHash := fun n => n + 100,
    getSpaceInfo := fun h => if h = 130 then .ok (some 7) else .ok none }

/-- The `Address::from_script` oracle for the C7 witness. -/
def addressFromScriptW : Nat → Except String Nat := fun s => .ok (s + 1000)

/-- A spaces-keychain holding for the C9 runs: one confirmed space-carrying
output worth 1000 sats. -/
def spacesOutsW : List WalletOutput :=
  [⟨1000, KeychainKind.External, false, OutClass.Confirmed, true⟩]

/-- A richer spaces-keychain holding for the C9 witness: a confirmed locked
space output (1000), a confirmed coin-value output (500) and a
trusted-pending coin-value output (200). -/
def spacesOutsW2 : List WalletOutput :=
  [⟨1000, KeychainKind.External, false, OutClass.Confirmed, true⟩,
   ⟨500, KeychainKind.External, false, OutClass.Confirmed, false⟩,
   ⟨200, KeychainKind.External, false, OutClass.TrustedPending, false⟩]

/-- A coins-keychain holding for the C9 witness: one confirmed output
(300). -/
def coinsOutsW : List WalletOutput :=
  [⟨300, KeychainKind.External, false, OutClass.Confirmed, false⟩]

/-! ## Theorems -/

/-- Convenience: the loop's step equations, proved once. -/
theorem send_json_blocking.loop_zero {R A : Type}
    (attempts : Nat → Except BitcoinRpcError R)
    (error_for_rpc : R → Except BitcoinRpcError A) (attempt delay : Nat)
    (sleeps : List Nat) (le : Option BitcoinRpcError) :
    send_json_blocking.loop attempts error_for_rpc 0 attempt delay sleeps le =
      (Except.error (le.getD (.Other "an error")), sleeps) := rfl

theorem send_json_blocking.loop_succ {R A : Type}
    (attempts : Nat → Except BitcoinRpcError R)
    (error_for_rpc : R → Except BitcoinRpcError A) (fuel attempt delay : Nat)
    (sleeps : List Nat) (le : Option BitcoinRpcError) :
    send_json_blocking.loop attempts error_for_rpc (fuel + 1) attempt delay sleeps le =
      match attempts attempt with
      | .ok res => (error_for_rpc res, sleeps)
      | .error e =>
          if e.is_temporary && decide (attempt < max_retries - 1) then
            send_json_blocking.loop attempts error_for_rpc fuel (attempt + 1)
              (delay * 2) (sleeps ++ [delay]) (some e)
          else
            (.error e, sleeps) := rfl

/-- C5: `is_temporary` returns true for a `BitcoinRpcError` exactly when
either (a) it is a `Transport` error that is a timeout or connect failure or
whose HTTP status is one of 408, 429, 500, 502, 503, 504, or (b) it is an
`Rpc` error whose code is one of −28, −10, −9; every `Other` error is
non-temporary. -/
theorem is_temporary_spec (e : BitcoinRpcError) :
    e.is_temporary = true ↔
      ((∃ t, e = .Transport t ∧
          (t.is_timeout = true ∨ t.is_connect = true ∨
            (∃ s, t.status = some s ∧
              (s = 408 ∨ s = 429 ∨ s = 500 ∨ s = 502 ∨ s = 503 ∨ s = 504)))) ∨
       (∃ j, e = .Rpc j ∧ (j.code = -28 ∨ j.code = -10 ∨ j.code = -9))) := by
  cases e with
  | Transport t =>
      obtain ⟨ti, co, st⟩ := t
      cases st with
      | none =>
          cases ti <;> cases co <;> simp [BitcoinRpcError.is_temporary]
      | some s =>
          cases ti <;> cases co <;>
            simp [BitcoinRpcError.is_temporary] <;> tauto
  | Rpc j =>
      simp [BitcoinRpcError.is_temporary, BITCOIN_RPC_IN_WARMUP,
        BITCOIN_RPC_CLIENT_IN_INITIAL_DOWNLOAD, BITCOIN_RPC_CLIENT_NOT_CONNECTED]
      tauto
  | Other s =>
      simp [BitcoinRpcError.is_temporary]

/-! ### Retry-loop lemmas -/

/-- If the request at attempt `j ≤ 4` succeeds, the loop returns that
response's parsed result with the sleeps accumulated so far. -/
theorem loop_stops_on_ok {R A : Type} (attempts : Nat → Except BitcoinRpcError R)
    (error_for_rpc : R → Except BitcoinRpcError A)
    (j : Nat) (hj : j ≤ 4) (r : R) (h : attempts j = .ok r)
    (delay : Nat) (sleeps : List Nat) (le : Option BitcoinRpcError) :
    send_json_blocking.loop attempts error_for_rpc (5 - j) j delay sleeps le =
      (error_for_rpc r, sleeps) := by
  obtain ⟨f, hf⟩ : ∃ f, 5 - j = f + 1 :=
    ⟨4 - j, by omega⟩
  rw [hf, send_json_blocking.loop_succ, h]

/-- If the request at attempt `j ≤ 4` yields an error that is non-temporary
or `j = 4`, the loop stops there returning that error. -/
theorem loop_stops_on_error {R A : Type} (attempts : Nat → Except BitcoinRpcError R)
    (error_for_rpc : R → Except BitcoinRpcError A)
    (j : Nat) (hj : j ≤ 4) (e : BitcoinRpcError) (h : attempts j = .error e)
    (hstop : e.is_temporary = false ∨ j = 4)
    (delay : Nat) (sleeps : List Nat) (le : Option BitcoinRpcError) :
    send_json_blocking.loop attempts error_for_rpc (5 - j) j delay sleeps le =
      (.error e, sleeps) := by
  obtain ⟨f, hf⟩ : ∃ f, 5 - j = f + 1 := ⟨4 - j, by omega⟩
  rw [hf, send_json_blocking.loop_succ, h]
  rcases hstop with hs | hs
  · simp [hs]
  · simp [hs, max_retries]

/-- If the request at attempt `j < 4` yields a temporary error, the loop
advances to attempt `j + 1`, doubling the delay and recording the sleep. -/
theorem loop_advances {R A : Type} (attempts : Nat → Except BitcoinRpcError R)
    (error_for_rpc : R → Except BitcoinRpcError A)
    (j : Nat) (hj : j < 4) (e : BitcoinRpcError) (h : attempts j = .error e)
    (htemp : e.is_temporary = true)
    (delay : Nat) (sleeps : List Nat) (le : Option BitcoinRpcError) :
    send_json_blocking.loop attempts error_for_rpc (5 - j) j delay sleeps le =
      send_json_blocking.loop attempts error_for_rpc (5 - (j + 1)) (j + 1)
        (delay * 2) (sleeps ++ [delay]) (some e) := by
  obtain ⟨f, hf⟩ : ∃ f, 5 - j = f + 1 := ⟨4 - j, by omega⟩
  have hf' : 5 - (j + 1) = f := by omega
  rw [hf, send_json_blocking.loop_succ, h, hf']
  simp [htemp, max_retries, hj]

/-- After `k` leading temporary request errors (`k ≤ 4`), the run reaches
attempt `k` having slept `20·2^0, …, 20·2^(k-1)`. -/
theorem loop_after_temporaries {R A : Type} (attempts : Nat → Except BitcoinRpcError R)
    (error_for_rpc : R → Except BitcoinRpcError A)
    (k : Nat) (hk : k ≤ 4)
    (htemp : ∀ i, i < k → ∃ e, attempts i = Except.error e ∧ e.is_temporary = true) :
    ∃ le, send_json_blocking attempts error_for_rpc =
      send_json_blocking.loop attempts error_for_rpc (5 - k) k (20 * 2 ^ k)
        ((List.range k).map fun i => 20 * 2 ^ i) le := by
  induction k with
  | zero => exact ⟨none, rfl⟩
  | succ n ih =>
      obtain ⟨le, hle⟩ := ih (by omega) (fun i hi => htemp i (by omega))
      obtain ⟨e, he, het⟩ := htemp n (by omega)
      refine ⟨some e, ?_⟩
      rw [hle, loop_advances attempts error_for_rpc n (by omega) e he het]
      congr 1
      · ring
      · rw [List.range_succ, List.map_append]
        rfl

/-- C3 (amended): `send_json_blocking` performs at most 5 attempts of the
underlying HTTP request with sleeps of `20·2^attempt` ms between attempts;
it retries only temporary errors of the request stage
(`send_request_blocking`): after `k ≤ 4` such errors, a request success at
attempt `k` returns that response's `error_for_rpc` result immediately (with
sleep trace `[20·2^0, …, 20·2^(k-1)]`) — in particular any `Rpc`-coded error
in the response body, temporary codes −28/−10/−9 included, is returned
without further attempts — a non-temporary request error at attempt `k` is
returned immediately, and after 5 straight temporary request errors the 5th
(last) one is returned. -/
theorem send_json_blocking_retry_spec {R A : Type}
    (attempts : Nat → Except BitcoinRpcError R)
    (error_for_rpc : R → Except BitcoinRpcError A) (k : Nat) (hk : k ≤ 5)
    (htemp : ∀ i, i < k → ∃ e, attempts i = Except.error e ∧ e.is_temporary = true) :
    (∀ r, k ≤ 4 → attempts k = .ok r →
        send_json_blocking attempts error_for_rpc =
          (error_for_rpc r, (List.range k).map fun i => 20 * 2 ^ i)) ∧
    (∀ e, k ≤ 4 → attempts k = .error e → e.is_temporary = false →
        send_json_blocking attempts error_for_rpc =
          (.error e, (List.range k).map fun i => 20 * 2 ^ i)) ∧
    (k = 5 → ∀ e, attempts 4 = .error e →
        send_json_blocking attempts error_for_rpc =
          (.error e, (List.range 4).map fun i => 20 * 2 ^ i)) := by
  refine ⟨?_, ?_, ?_⟩
  · intro r hk4 hok
    obtain ⟨le, hle⟩ := loop_after_temporaries attempts error_for_rpc k hk4 htemp
    rw [hle, loop_stops_on_ok attempts error_for_rpc k hk4 r hok]
  · intro e hk4 herr hnt
    obtain ⟨le, hle⟩ := loop_after_temporaries attempts error_for_rpc k hk4 htemp
    rw [hle, loop_stops_on_error attempts error_for_rpc k hk4 e herr (Or.inl hnt)]
  · intro h5 e herr
    obtain ⟨le, hle⟩ := loop_after_temporaries attempts error_for_rpc 4 (by omega)
      (fun i hi => htemp i (by omega))
    rw [hle, loop_stops_on_error attempts error_for_rpc 4 (by omega) e herr
      (Or.inr rfl)]

/-- Witness for C3's theorem: one temporary transport timeout, then a request
success whose body parses to 7; the call returns the success having slept
20 ms once. -/
theorem send_json_blocking_retry_spec_witness :
    send_json_blocking retryWitnessOracle retryWitnessParse = (.ok 7, [20]) := by
  have h := send_json_blocking_retry_spec retryWitnessOracle retryWitnessParse 1
    (by omega)
    (by
      intro i hi
      refine ⟨.Transport ⟨true, false, none⟩, ?_, ?_⟩
      · have : i = 0 := by omega
        subst this
        rfl
      · rfl)
  have := h.1 7 (by omega) rfl
  simpa using this

/-- C3 counterexample, refuting "any run of k ≤ 5 temporary errors followed
by a success returns that success" twice over.  First scenario: the first
attempt's HTTP request succeeds but its body carries the RPC warm-up error
−28 — a temporary error per `is_temporary` — and the next outcome is the
success; the code returns the −28 error immediately, with no sleep and no
retry (RPC-coded errors are returned via the `Ok` arm's
`return res.error_for_rpc()`).  Second scenario: 5 straight temporary
transport timeouts followed by a success; the code returns the 5th timeout
and never reaches the success. -/
theorem send_json_blocking_retry_counterexample :
    BitcoinRpcError.is_temporary (.Rpc ⟨-28, "warming up"⟩) = true ∧
    warmupParse 0 = .error (.Rpc ⟨-28, "warming up"⟩) ∧
    warmupParse 1 = .ok 42 ∧
    send_json_blocking warmupResponses warmupParse =
      (.error (.Rpc ⟨-28, "warming up"⟩), []) ∧
    BitcoinRpcError.is_temporary (.Transport ⟨true, false, none⟩) = true ∧
    fiveTempOracle 4 = .error (.Transport ⟨true, false, none⟩) ∧
    fiveTempOracle 5 = .ok 42 ∧
    (send_json_blocking fiveTempOracle (fun r => .ok r)).1 =
      .error (.Transport ⟨true, false, none⟩) := by
  refine ⟨rfl, rfl, rfl, rfl, rfl, rfl, rfl, rfl⟩

/-- If every poll in the window succeeds without a `time` field, the loop
falls through with `last_error = none` and panics. -/
theorem broadcast_go_all_missing_time (poll : Nat → Except BitcoinRpcError (Option Nat)) :
    ∀ (fuel start : Nat), (∀ i, start ≤ i → i < start + fuel → poll i = .ok none) →
      broadcast_tx.go poll fuel start none = .panicExpect := by
  intro fuel
  induction fuel with
  | zero => intro start _; rfl
  | succ f ih =>
      intro start h
      have h0 : poll start = .ok none := h start (le_refl _) (by omega)
      unfold broadcast_tx.go
      rw [h0]
      exact ih (start + 1) (fun i h1 h2 => h i (by omega) (by omega))

/-- If the loop returns `.err e` then `e` came from a failing poll in the
window, or was the saved `last_error` it started with. -/
theorem broadcast_go_err_from_poll (poll : Nat → Except BitcoinRpcError (Option Nat)) :
    ∀ (fuel start : Nat) (last : Option BitcoinRpcError) (e : BitcoinRpcError),
      broadcast_tx.go poll fuel start last = .err e →
      (∃ i, start ≤ i ∧ i < start + fuel ∧ poll i = .error e) ∨ last = some e := by
  intro fuel
  induction fuel with
  | zero =>
      intro start last e h
      cases last with
      | none => exact absurd h (by simp [broadcast_tx.go])
      | some e' =>
          right
          simp [broadcast_tx.go] at h
          rw [h]
  | succ f ih =>
      intro start last e h
      unfold broadcast_tx.go at h
      cases hp : poll start with
      | ok o =>
          cases o with
          | none =>
              rw [hp] at h
              rcases ih (start + 1) last e h with ⟨i, h1, h2, h3⟩ | hl
              · exact Or.inl ⟨i, by omega, by omega, h3⟩
              · exact Or.inr hl
          | some t => rw [hp] at h; exact absurd h (by simp)
      | error e' =>
          rw [hp] at h
          rcases ih (start + 1) (some e') e h with ⟨i, h1, h2, h3⟩ | hl
          · exact Or.inl ⟨i, by omega, by omega, h3⟩
          · refine Or.inl ⟨start, le_refl _, by omega, ?_⟩
            rw [hp]
            simp at hl
            rw [hl]

/-- C10: if `sendrawtransaction` succeeds and all 10 `getmempoolentry` polls
return successful responses that merely lack a numeric `time` field,
`broadcast_tx` hits the `last_error.expect("an error")` panic instead of
returning a `Result`; and it returns an error value only when at least one
poll itself failed. -/
theorem broadcast_tx_panics_when_polls_lack_time
    (sendraw : Except BitcoinRpcError String)
    (poll : Nat → Except BitcoinRpcError (Option Nat))
    (txid : String) (hsend : sendraw = .ok txid) :
    ((∀ i, i < 10 → poll i = .ok none) →
      broadcast_tx sendraw poll = .panicExpect) ∧
    (∀ e, broadcast_tx sendraw poll = .err e →
      ∃ i, i < 10 ∧ poll i = .error e) := by
  constructor
  · intro hall
    rw [hsend]
    show broadcast_tx.go poll 10 0 none = .panicExpect
    exact broadcast_go_all_missing_time poll 10 0 (fun i _ h2 => hall i (by omega))
  · intro e he
    rw [hsend] at he
    have := broadcast_go_err_from_poll poll 10 0 none e he
    rcases this with ⟨i, _, h2, h3⟩ | hl
    · exact ⟨i, by omega, h3⟩
    · exact absurd hl (by simp)

/-- Witness for C10's theorem: a successful broadcast whose 10 mempool polls
all succeed without a `time` field panics. -/
theorem broadcast_tx_panics_witness :
    broadcast_tx (.ok "txid") (fun _ => .ok none) = .panicExpect :=
  (broadcast_tx_panics_when_polls_lack_time (.ok "txid") (fun _ => .ok none)
    "txid" rfl).1 (fun _ _ => rfl)

theorem endHash_append (prev : Nat) (l : List (RpcBlockId × FetchedBlock))
    (x : RpcBlockId × FetchedBlock) :
    endHash prev (l ++ [x]) = x.1.hash := by
  induction l generalizing prev with
  | nil => rfl
  | cons y ys ih => exact ih y.1.hash

/-- The accumulator of `run_workers.go` is a pure prefix. -/
theorem run_workers.go_acc (fetch : Nat → FetchedBlock) :
    ∀ (fuel h prev : Nat) (acc : List (RpcBlockId × FetchedBlock)),
      run_workers.go fetch fuel h prev acc =
        (acc ++ (run_workers.go fetch fuel h prev []).1,
         (run_workers.go fetch fuel h prev []).2) := by
  intro fuel
  induction fuel with
  | zero => intro h prev acc; simp [run_workers.go]
  | succ f ih =>
      intro h prev acc
      by_cases hm : (fetch h).prev_blockhash = prev
      · simp only [run_workers.go, hm, ne_eq, not_true_eq_false, if_false,
          List.nil_append]
        rw [ih, ih]
        rw [ih (h + 1) (fetch h).hash [(⟨h, (fetch h).hash⟩, fetch h)]]
        simp
      · simp [run_workers.go, hm]

/-- Full characterization of the emission loop started with an empty
accumulator: every emitted event is `(⟨h+i, hash⟩, block)` for the `i`-th
fetched block, the fetched blocks emitted form a hash chain from `prev`, and
the run either emits everything (`Ok` at the last emitted id) or stops at the
first mismatching block with `BlockMismatch`. -/
theorem run_workers.go_spec (fetch : Nat → FetchedBlock) :
    ∀ (fuel h prev : Nat),
      (∀ i (hi : i < ((run_workers.go fetch fuel h prev []).1).length),
          ((run_workers.go fetch fuel h prev []).1).get ⟨i, hi⟩ =
            (⟨h + i, (fetch (h + i)).hash⟩, fetch (h + i))) ∧
      (∀ i, i < ((run_workers.go fetch fuel h prev []).1).length →
          (fetch (h + i)).prev_blockhash =
            (if i = 0 then prev else (fetch (h + i - 1)).hash)) ∧
      (((run_workers.go fetch fuel h prev []).2 =
            .ok ⟨h + ((run_workers.go fetch fuel h prev []).1).length - 1,
                 endHash prev (run_workers.go fetch fuel h prev []).1⟩ ∧
          ((run_workers.go fetch fuel h prev []).1).length = fuel) ∨
        ((run_workers.go fetch fuel h prev []).2 = .error .BlockMismatch ∧
          ((run_workers.go fetch fuel h prev []).1).length < fuel ∧
          (fetch (h + ((run_workers.go fetch fuel h prev []).1).length)).prev_blockhash ≠
            endHash prev (run_workers.go fetch fuel h prev []).1)) := by
  intro fuel
  induction fuel with
  | zero =>
      intro h prev
      refine ⟨?_, ?_, Or.inl ⟨rfl, rfl⟩⟩
      · intro i hi
        exact absurd hi (by simp [run_workers.go])
      · intro i hi
        exact absurd hi (by simp [run_workers.go])
  | succ f ih =>
      intro h prev
      by_cases hm : (fetch h).prev_blockhash = prev
      · have heq : run_workers.go fetch (f + 1) h prev [] =
            ((⟨h, (fetch h).hash⟩, fetch h) ::
                (run_workers.go fetch f (h + 1) (fetch h).hash []).1,
             (run_workers.go fetch f (h + 1) (fetch h).hash []).2) := by
          show (if (fetch h).prev_blockhash ≠ prev then _
                else run_workers.go fetch f (h + 1) (fetch h).hash
                  ([] ++ [(⟨h, (fetch h).hash⟩, fetch h)])) = _
          rw [if_neg (by simp [hm]), List.nil_append,
            run_workers.go_acc fetch f (h + 1) (fetch h).hash]
          simp
        rw [heq]
        obtain ⟨ihget, ihchain, ihres⟩ := ih (h + 1) (fetch h).hash
        refine ⟨?_, ?_, ?_⟩
        · intro i hi
          cases i with
          | zero => simp
          | succ j =>
              have hj : j < ((run_workers.go fetch f (h + 1) (fetch h).hash []).1).length := by
                simpa using hi
              have hget := ihget j hj
              have harith : h + 1 + j = h + (j + 1) := by omega
              simp only [List.get_cons_succ]
              rw [hget, harith]
        · intro i hi
          cases i with
          | zero => simpa using hm
          | succ j =>
              have hj : j < ((run_workers.go fetch f (h + 1) (fetch h).hash []).1).length := by
                simpa using hi
              have hchain := ihchain j hj
              have harith : h + 1 + j = h + (j + 1) := by omega
              rw [harith] at hchain
              rw [hchain]
              cases j with
              | zero => simp
              | succ k =>
                  have hcond1 : k + 1 ≠ 0 := by omega
                  have hcond2 : k + 1 + 1 ≠ 0 := by omega
                  rw [if_neg hcond1, if_neg hcond2]
        · have hend : endHash prev
              ((⟨h, (fetch h).hash⟩, fetch h) ::
                (run_workers.go fetch f (h + 1) (fetch h).hash []).1) =
              endHash (fetch h).hash
                (run_workers.go fetch f (h + 1) (fetch h).hash []).1 := rfl
          rcases ihres with ⟨hok, hlen⟩ | ⟨herr, hlen, hne⟩
          · left
            refine ⟨?_, by simp [hlen]⟩
            rw [hok, hend]
            simp only [List.length_cons]
            congr 2
            omega
          · right
            refine ⟨herr, by simp; omega, ?_⟩
            rw [hend]
            simp only [List.length_cons]
            have harith : h + ((run_workers.go fetch f (h + 1) (fetch h).hash []).1.length + 1)
                = h + 1 + (run_workers.go fetch f (h + 1) (fetch h).hash []).1.length := by
              omega
            rw [harith]
            exact hne
      · have heq : run_workers.go fetch (f + 1) h prev [] =
            ([], .error .BlockMismatch) := by
          show (if (fetch h).prev_blockhash ≠ prev then _ else _) = _
          rw [if_pos (by simp [hm])]
        rw [heq]
        refine ⟨?_, ?_, Or.inr ⟨rfl, by simp, ?_⟩⟩
        · intro i hi
          exact absurd hi (by simp)
        · intro i hi
          exact absurd hi (by simp)
        · simpa using hm

/-- C1: in a single `run_workers` batch started from `start_block`, the
emitted `Block` events carry consecutive heights increasing by exactly 1 from
`start_block.height + 1` (each id carrying the hash `getblockhash` returned
for that height), each emitted block's `header.prev_blockhash` equals the
hash of the previously emitted block (`start_block.hash` for the first), and
whenever the next in-order block's `prev_blockhash` differs from the expected
hash, `run_workers` returns `BlockMismatch` without emitting that block
(otherwise it returns `Ok` at the last emitted id). -/
theorem run_workers_emits_chain (fetch : Nat → FetchedBlock)
    (start_block : RpcBlockId) (end_height : Nat) :
    (∀ i (hi : i < ((run_workers fetch start_block end_height).1).length),
        ((run_workers fetch start_block end_height).1).get ⟨i, hi⟩ =
          (⟨start_block.height + 1 + i, (fetch (start_block.height + 1 + i)).hash⟩,
           fetch (start_block.height + 1 + i))) ∧
    (∀ i (hi : i < ((run_workers fetch start_block end_height).1).length),
        (((run_workers fetch start_block end_height).1).get ⟨i, hi⟩).2.prev_blockhash =
          if i = 0 then start_block.hash
          else (((run_workers fetch start_block end_height).1).get
              ⟨i - 1, by omega⟩).1.hash) ∧
    (((run_workers fetch start_block end_height).2 =
          .ok ⟨start_block.height + ((run_workers fetch start_block end_height).1).length,
               endHash start_block.hash (run_workers fetch start_block end_height).1⟩ ∧
        ((run_workers fetch start_block end_height).1).length =
          end_height - start_block.height) ∨
      ((run_workers fetch start_block end_height).2 = .error .BlockMismatch ∧
        ((run_workers fetch start_block end_height).1).length <
          end_height - start_block.height ∧
        (fetch (start_block.height + 1 +
            ((run_workers fetch start_block end_height).1).length)).prev_blockhash ≠
          endHash start_block.hash (run_workers fetch start_block end_height).1)) := by
  obtain ⟨hget, hchain, hres⟩ := run_workers.go_spec fetch
    (end_height - start_block.height) (start_block.height + 1) start_block.hash
  have hgo : run_workers.go fetch (end_height - start_block.height)
      (start_block.height + 1) start_block.hash [] =
      run_workers fetch start_block end_height := rfl
  rw [hgo] at hget hchain hres
  refine ⟨hget, ?_, ?_⟩
  · intro i hi
    rw [hget i hi, hchain i hi]
    cases i with
    | zero => rfl
    | succ j =>
        rw [if_neg (by omega), if_neg (by omega)]
        have e : start_block.height + 1 + (j + 1) - 1 = start_block.height + 1 + j := by
          omega
        rw [e]
        simp only [Nat.add_sub_cancel]
        rw [hget j (by omega)]
  · rcases hres with ⟨hok, hlen⟩ | ⟨herr, hlen, hne⟩
    · left
      refine ⟨?_, hlen⟩
      rw [hok]
      congr 2
      omega
    · exact Or.inr ⟨herr, hlen, hne⟩

/-- Witness for C1's theorem: fetching heights 11 and 12 on top of
`{height 10, hash 10}` emits blocks of heights 11 then 12, the first chained
to the start hash, the second to the first, and completes at id
`{height 12, hash 12}`. -/
theorem run_workers_emits_chain_witness :
    ((run_workers chainOracle ⟨10, 10⟩ 12).1).length = 2 ∧
    ((run_workers chainOracle ⟨10, 10⟩ 12).1).get ⟨0, by decide⟩ =
      (⟨11, 11⟩, ⟨11, 10⟩) ∧
    ((run_workers chainOracle ⟨10, 10⟩ 12).1).get ⟨1, by decide⟩ =
      (⟨12, 12⟩, ⟨12, 11⟩) ∧
    (((run_workers chainOracle ⟨10, 10⟩ 12).1).get ⟨1, by decide⟩).2.prev_blockhash =
      (((run_workers chainOracle ⟨10, 10⟩ 12).1).get ⟨0, by decide⟩).1.hash ∧
    (run_workers chainOracle ⟨10, 10⟩ 12).2 = .ok ⟨12, 12⟩ := by
  obtain ⟨hget, hchain, _⟩ := run_workers_emits_chain chainOracle ⟨10, 10⟩ 12
  refine ⟨by decide, ?_, ?_, ?_, rfl⟩
  · exact hget 0 (by decide)
  · exact hget 1 (by decide)
  · have := hchain 1 (by decide)
    rw [this, if_neg (by decide)]

set_option maxRecDepth 100000 in
/-- C6: `fee_rate_from_message` returns `none` for every message not
containing `"insufficient fee, rejecting replacement"`; on a message
containing the phrase it takes the second semicolon-delimited segment, splits
it on `"<="`, reads the third whitespace-delimited token of the right-hand
side as a BTC/kvB float, and returns it multiplied by 100 000 and truncated
as a sat/vB fee rate — on the example message the old feerate
`0.02000000 BTC/kvB` yields 2000 sat/vB — and it returns `none` rather than
failing when pieces are missing or non-numeric. -/
theorem fee_rate_from_message_spec :
    (∀ message, strContains message "insufficient fee, rejecting replacement" = false →
        fee_rate_from_message message = none) ∧
    fee_rate_from_message
        "insufficient fee, rejecting replacement 96bb0d5fa00a35e888ff8afb5b41903955b8f34b5b2de01d874ae579a4d1eba0; new feerate 0.01000000 BTC/kvB <= old feerate 0.02000000 BTC/kvB" =
      FeeRate.from_sat_per_vb 2000 ∧
    fee_rate_from_message "insufficient fee, rejecting replacement x" = none ∧
    fee_rate_from_message
        "insufficient fee, rejecting replacement x; new feerate 0.01 BTC/kvB <= old feerate nonnumeric BTC/kvB" =
      none := by
  refine ⟨?_, ?_, ?_, ?_⟩
  · intro message h
    simp [fee_rate_from_message, h]
  · rfl
  · rfl
  · rfl

/-- Witness for C6's theorem: a message without the replacement phrase maps
to `none`. -/
theorem fee_rate_from_message_spec_witness :
    fee_rate_from_message "dust" = none :=
  fee_rate_from_message_spec.1 "dust" rfl

/-- C4 counterexample: with `wallet_tip.height = 100` and checkpoints at
heights 88 and 80 (tip-first order), the checkpoint at height 88 is exactly
12 blocks behind the tip; the claim's "at least 12 blocks behind" picks it,
but the code's `> 12` comparison skips it and picks height 80. -/
theorem restore_point_skips_exactly_12_behind :
    restore_point 100 [⟨88, 1⟩, ⟨80, 2⟩] = some ⟨80, 2⟩ ∧
    restore_point_claimed 100 [⟨88, 1⟩, ⟨80, 2⟩] = some ⟨88, 1⟩ ∧
    restore_point 100 [⟨88, 1⟩, ⟨80, 2⟩] ≠ restore_point_claimed 100 [⟨88, 1⟩, ⟨80, 2⟩] := by
  refine ⟨rfl, rfl, by decide⟩

/-- C4 (amended): on `BlockMismatch` the checkpoint scan returns the most
recent checkpoint *more* than 12 blocks behind the current wallet tip
(`tip.height − checkpoint.height > 12`, i.e. at least 13 behind), or, when no
such checkpoint exists, the oldest available checkpoint; the checkpoint list
is given tip-first (strictly descending heights), as `iter_checkpoints`
yields it. -/
theorem restore_point_spec (tipH : Nat) (cps : List RpcBlockId)
    (hne : cps ≠ [])
    (hdesc : cps.Pairwise (fun a b => b.height < a.height)) :
    ∃ r, restore_point tipH cps = some r ∧ r ∈ cps ∧
      ((12 < tipH - r.height ∧
          ∀ c ∈ cps, 12 < tipH - c.height → c.height ≤ r.height) ∨
       ((∀ c ∈ cps, ¬ 12 < tipH - c.height) ∧ ∀ c ∈ cps, r.height ≤ c.height)) := by
  induction cps with
  | nil => exact absurd rfl hne
  | cons a l ih =>
      rw [List.pairwise_cons] at hdesc
      obtain ⟨hlt, hdesc'⟩ := hdesc
      by_cases hpa : 12 < tipH - a.height
      · refine ⟨a, ?_, List.mem_cons_self a l, Or.inl ⟨hpa, ?_⟩⟩
        · unfold restore_point
          rw [List.find?_cons_of_pos _ (by simpa using hpa)]
        · intro c hc _
          rcases List.mem_cons.mp hc with rfl | hcl
          · exact le_refl _
          · exact le_of_lt (hlt c hcl)
      · cases l with
        | nil =>
            refine ⟨a, ?_, List.mem_cons_self a [], Or.inr ⟨?_, ?_⟩⟩
            · unfold restore_point
              rw [List.find?_cons_of_neg _ (by simpa using hpa)]
              rfl
            · intro c hc
              rcases List.mem_cons.mp hc with rfl | hcl
              · exact hpa
              · exact absurd hcl (List.not_mem_nil c)
            · intro c hc
              rcases List.mem_cons.mp hc with rfl | hcl
              · exact le_refl _
              · exact absurd hcl (List.not_mem_nil c)
        | cons b l' =>
            obtain ⟨r, hr, hmem, hcase⟩ := ih (by simp) hdesc'
            have hstep : restore_point tipH (a :: b :: l') =
                restore_point tipH (b :: l') := by
              unfold restore_point
              rw [List.find?_cons_of_neg _ (by simpa using hpa)]
              cases hf : (b :: l').find? (fun x => decide (12 < tipH - x.height)) with
              | some x => rfl
              | none => rw [List.getLast?_cons_cons]
            refine ⟨r, by rw [hstep]; exact hr, List.mem_cons_of_mem a hmem, ?_⟩
            rcases hcase with ⟨hq, hmax⟩ | ⟨hnone, hmin⟩
            · refine Or.inl ⟨hq, ?_⟩
              intro c hc hqc
              rcases List.mem_cons.mp hc with rfl | hcl
              · exact absurd hqc hpa
              · exact hmax c hcl hqc
            · refine Or.inr ⟨?_, ?_⟩
              · intro c hc
                rcases List.mem_cons.mp hc with rfl | hcl
                · exact hpa
                · exact hnone c hcl
              · intro c hc
                rcases List.mem_cons.mp hc with rfl | hcl
                · exact le_of_lt (hlt r hmem)
                · exact hmin c hcl

/-- Witness for C4's theorem: tip at height 100 with checkpoints at heights
99 and 80; the checkpoint at 80 (the only one more than 12 behind) is
chosen. -/
theorem restore_point_spec_witness :
    ∃ r, restore_point 100 [⟨99, 5⟩, ⟨80, 6⟩] = some r ∧
      r ∈ [(⟨99, 5⟩ : RpcBlockId), ⟨80, 6⟩] ∧
      ((12 < 100 - r.height ∧
          ∀ c ∈ [(⟨99, 5⟩ : RpcBlockId), ⟨80, 6⟩],
            12 < 100 - c.height → c.height ≤ r.height) ∨
       ((∀ c ∈ [(⟨99, 5⟩ : RpcBlockId), ⟨80, 6⟩], ¬ 12 < 100 - c.height) ∧
          ∀ c ∈ [(⟨99, 5⟩ : RpcBlockId), ⟨80, 6⟩], r.height ≤ c.height)) :=
  restore_point_spec 100 [⟨99, 5⟩, ⟨80, 6⟩] (by decide) (by decide)

/-- C8 sync-loop lemma: the commit counter never decreases. -/
theorem wallet_sync_loop_commits_mono (cps : List RpcBlockId) :
    ∀ (trace : List SyncInput) (tip : RpcBlockId) (c : Nat),
      c ≤ (wallet_sync_loop cps trace tip c).1 := by
  intro trace
  induction trace with
  | nil => intro tip c; exact le_refl c
  | cons s rest ih =>
      intro tip c
      cases s with
      | shutdown => exact le_refl c
      | block id =>
          by_cases h12 : id.height % 12 = 0
          · calc c ≤ c + 1 := by omega
              _ ≤ _ := by
                have := ih id (c + 1)
                simpa [wallet_sync_loop, h12] using this
          · have := ih id c
            simpa [wallet_sync_loop, h12] using this
      | mismatch => exact ih _ c
      | fatal => exact le_refl c

/-- C8 sync-loop lemma: applying a run of blocks advances the commit counter
by the number of applied blocks whose height is divisible by 12, then
continues with the rest of the trace. -/
theorem wallet_sync_loop_blocks_run (cps : List RpcBlockId) :
    ∀ (ids : List RpcBlockId) (rest : List SyncInput) (tip : RpcBlockId) (c : Nat),
      wallet_sync_loop cps ((ids.map SyncInput.block) ++ rest) tip c =
        wallet_sync_loop cps rest (ids.getLastD tip)
          (c + ids.countP (fun id => id.height % 12 = 0)) := by
  intro ids
  induction ids with
  | nil => intro rest tip c; simp
  | cons id ids ih =>
      intro rest tip c
      show wallet_sync_loop cps (SyncInput.block id :: (ids.map SyncInput.block ++ rest)) tip c = _
      rw [show wallet_sync_loop cps (SyncInput.block id :: (ids.map SyncInput.block ++ rest)) tip c
            = wallet_sync_loop cps (ids.map SyncInput.block ++ rest) id
                (if id.height % 12 = 0 then c + 1 else c) from rfl,
        ih]
      rw [List.getLastD_cons, List.countP_cons]
      congr 1
      by_cases h12 : id.height % 12 = 0
      · simp [h12]
        omega
      · simp [h12]

/-- C8 counterexample: a run that applies one block (height 1, not divisible
by 12) and then receives the shutdown signal exits cleanly having performed
zero commits — the actor does not commit on clean shutdown. -/
theorem wallet_sync_no_commit_on_shutdown :
    wallet_sync_loop [] [SyncInput.block ⟨1, 1⟩, SyncInput.shutdown] ⟨0, 0⟩ 0 =
      (0, SyncExit.clean, ⟨1, 1⟩) := rfl

/-- C8 (amended): the wallet sync actor commits exactly at applied blocks
whose height is divisible by 12, hence at least once per every 12
consecutively applied blocks with consecutive heights; receiving the
shutdown signal breaks out of the loop cleanly without performing a
commit. -/
theorem wallet_sync_commit_schedule (cps : List RpcBlockId)
    (ids : List RpcBlockId) (rest : List SyncInput) (tip : RpcBlockId)
    (c0 h : Nat) (hlen : ids.length = 12)
    (hheights : ∀ i (hi : i < ids.length), (ids.get ⟨i, hi⟩).height = h + 1 + i) :
    c0 + 1 ≤ (wallet_sync_loop cps ((ids.map SyncInput.block) ++ rest) tip c0).1 ∧
    (∀ rest' tip' c', wallet_sync_loop cps (SyncInput.shutdown :: rest') tip' c' =
      (c', SyncExit.clean, tip')) := by
  constructor
  · rw [wallet_sync_loop_blocks_run]
    have hcount : 0 < ids.countP (fun id => decide (id.height % 12 = 0)) := by
      rw [List.countP_pos]
      obtain ⟨i, hi, hmod⟩ : ∃ i, i < 12 ∧ (h + 1 + i) % 12 = 0 := by
        refine ⟨(12 - (h + 1) % 12) % 12, ?_, ?_⟩ <;> omega
      refine ⟨ids.get ⟨i, by omega⟩, List.get_mem ids i (by omega), ?_⟩
      rw [hheights i (by omega)]
      simpa using hmod
    calc c0 + 1 ≤ c0 + ids.countP (fun id => decide (id.height % 12 = 0)) := by omega
      _ ≤ _ := wallet_sync_loop_commits_mono cps rest _ _
  · intro rest' tip' c'
    rfl

/-- Witness for C8's theorem: twelve consecutive blocks at heights 1..12 on
top of an empty trace yield at least one commit (at height 12). -/
theorem wallet_sync_commit_schedule_witness :
    1 ≤ (wallet_sync_loop []
        ((((List.range 12).map (fun i => (⟨1 + i, i⟩ : RpcBlockId))).map
          SyncInput.block) ++ []) ⟨0, 0⟩ 0).1 :=
  (wallet_sync_commit_schedule [] ((List.range 12).map fun i => ⟨1 + i, i⟩) []
    ⟨0, 0⟩ 0 0 (by decide)
    (by
      intro i hi
      simp [List.get_map])).1

/-! ### Batch-broadcast lemmas -/

/-- Step equation of the broadcast loop on a non-empty batch. -/
theorem batch_go_cons (broadcastRes : Nat → Except BitcoinRpcError Nat)
    (insertOk : Nat → Bool) (t : TaggedTx) (rest : List TaggedTx) (i : Nat)
    (rs : List TxResponse) (raws : List String) (he : Bool) :
    batch_tx.go broadcastRes insertOk (t :: rest) i rs raws he =
      match broadcastRes i with
      | .ok _ =>
          if insertOk i then
            batch_tx.go broadcastRes insertOk rest (i + 1)
              (rs ++ [⟨t.txid, t.tags, none⟩]) (raws ++ [t.raw]) he
          else .error "wallet insert or commit failed"
      | .error e =>
          .ok ⟨rs ++ [⟨t.txid, t.tags,
                some (batchErrorData (t.tags.contains TransactionTag.Bid) e)⟩],
               some (raws ++ [t.raw])⟩ := rfl

/-- Looking up the key just inserted. -/
theorem lookup_mapInsert_self (m : List (String × String)) (k v : String) :
    (mapInsert m k v).lookup k = some v := by
  induction m with
  | nil => simp [mapInsert, List.lookup]
  | cons p rest ih =>
      obtain ⟨pk, pv⟩ := p
      by_cases hk : pk = k
      · subst hk
        simp [mapInsert, List.lookup]
      · simp only [mapInsert, if_neg hk, List.lookup]
        rw [show (k == pk) = false from beq_eq_false_iff_ne.mpr fun h => hk h.symm]
        exact ih

/-- Inserting one key leaves other keys' lookups unchanged. -/
theorem lookup_mapInsert_ne (m : List (String × String)) (k k' v : String)
    (h : k' ≠ k) : (mapInsert m k v).lookup k' = m.lookup k' := by
  induction m with
  | nil =>
      simp only [mapInsert, List.lookup]
      rw [show (k' == k) = false from beq_eq_false_iff_ne.mpr h]
  | cons p rest ih =>
      obtain ⟨pk, pv⟩ := p
      by_cases hk : pk = k
      · have hbe1 : (k' == k) = false := beq_eq_false_iff_ne.mpr h
        have hbe2 : (k' == pk) = false :=
          beq_eq_false_iff_ne.mpr (by rw [hk]; exact h)
        simp only [mapInsert, if_pos hk, List.lookup, hbe1, hbe2]
      · simp only [mapInsert, if_neg hk, List.lookup]
        by_cases hk' : k' = pk
        · rw [show (k' == pk) = true from beq_iff_eq.mpr hk']
        · rw [show (k' == pk) = false from beq_eq_false_iff_ne.mpr hk']
          exact ih

/-- The diagnostic map of an RPC broadcast failure always carries the
`rpc_code` and `message` fields. -/
theorem batchErrorData_rpc_fields (is_bid : Bool) (rpc : JsonRpcError) :
    (batchErrorData is_bid (.Rpc rpc)).lookup "rpc_code" = some (toString rpc.code) ∧
    (batchErrorData is_bid (.Rpc rpc)).lookup "message" = some rpc.message := by
  constructor
  · show (mapInsert (mapInsert _ "rpc_code" _) "message" _).lookup "rpc_code" = _
    rw [lookup_mapInsert_ne _ _ _ _ (by decide), lookup_mapInsert_self]
  · exact lookup_mapInsert_self _ _ _

/-- If every remaining broadcast succeeds (and inserts succeed), the loop
appends an error-free result per transaction and keeps `has_errors`. -/
theorem batch_go_all_ok (broadcastRes : Nat → Except BitcoinRpcError Nat)
    (insertOk : Nat → Bool) :
    ∀ (txs : List TaggedTx) (i : Nat) (rs : List TxResponse) (raws : List String)
      (he : Bool),
      (∀ j, j < txs.length → ∃ c, broadcastRes (i + j) = .ok c) →
      (∀ j, j < txs.length → insertOk (i + j) = true) →
      batch_tx.go broadcastRes insertOk txs i rs raws he =
        .ok ⟨rs ++ txs.map (fun t => ⟨t.txid, t.tags, none⟩),
             if he then some (raws ++ txs.map (fun t => t.raw)) else none⟩ := by
  intro txs
  induction txs with
  | nil =>
      intro i rs raws he _ _
      simp [batch_tx.go]
  | cons t rest ih =>
      intro i rs raws he hok hins
      obtain ⟨c, hc⟩ := hok 0 (by simp)
      have hi : insertOk i = true := by simpa using hins 0 (by simp)
      rw [show i + 0 = i from rfl] at hc
      rw [batch_go_cons, hc]
      simp only [hi, if_true]
      rw [ih (i + 1) _ _ he
        (fun j hj => by
          have := hok (j + 1) (by simpa using Nat.succ_lt_succ hj)
          simpa [Nat.add_assoc, Nat.add_comm 1 j] using this)
        (fun j hj => by
          have := hins (j + 1) (by simpa using Nat.succ_lt_succ hj)
          simpa [Nat.add_assoc, Nat.add_comm 1 j] using this)]
      simp

/-- If the broadcasts at relative offsets `0..k-1` succeed and the one at
offset `k` fails, the loop returns: the `k` error-free results, then the
failing transaction's result carrying the diagnostic map, with the raw hex
of exactly the `k+1` attempted transactions. -/
theorem batch_go_fail_at (broadcastRes : Nat → Except BitcoinRpcError Nat)
    (insertOk : Nat → Bool) :
    ∀ (txs : List TaggedTx) (k : Nat) (hk : k < txs.length) (i : Nat)
      (rs : List TxResponse) (raws : List String) (he : Bool)
      (e : BitcoinRpcError),
      (∀ j, j < k → ∃ c, broadcastRes (i + j) = .ok c) →
      (∀ j, j < k → insertOk (i + j) = true) →
      broadcastRes (i + k) = .error e →
      batch_tx.go broadcastRes insertOk txs i rs raws he =
        .ok ⟨rs ++ (txs.take k).map (fun t => ⟨t.txid, t.tags, none⟩) ++
              [⟨(txs.get ⟨k, hk⟩).txid, (txs.get ⟨k, hk⟩).tags,
                some (batchErrorData
                  ((txs.get ⟨k, hk⟩).tags.contains TransactionTag.Bid) e)⟩],
             some (raws ++ (txs.take (k + 1)).map (fun t => t.raw))⟩ := by
  intro txs
  induction txs with
  | nil => intro k hk; exact absurd hk (by simp)
  | cons t rest ih =>
      intro k hk i rs raws he e hok hins herr
      cases k with
      | zero =>
          rw [show i + 0 = i from rfl] at herr
          rw [batch_go_cons, herr]
          simp
      | succ k' =>
          obtain ⟨c, hc⟩ := hok 0 (by omega)
          have hi : insertOk i = true := by simpa using hins 0 (by omega)
          rw [show i + 0 = i from rfl] at hc
          rw [batch_go_cons, hc]
          simp only [hi, if_true]
          rw [ih k' (by simpa using Nat.lt_of_succ_lt_succ hk) (i + 1) _ _ he e
            (fun j hj => by
              have := hok (j + 1) (by omega)
              simpa [Nat.add_assoc, Nat.add_comm 1 j] using this)
            (fun j hj => by
              have := hins (j + 1) (by omega)
              simpa [Nat.add_assoc, Nat.add_comm 1 j] using this)
            (by
              have harith : i + 1 + k' = i + (k' + 1) := by omega
              rw [harith]
              exact herr)]
          simp

/-- C2: if broadcasting the transaction at position `i` of a batch fails,
`batch_tx` stops iterating immediately: results `0..i-1` carry no error
field, result `i` carries a populated error map (with `rpc_code` and
`message` for RPC errors), no result at a position past `i` exists
(`sent.length = i + 1`), and the response carries the raw hex bundle; when
every broadcast succeeds, no result carries an error and no raw bundle is
returned — the bundle is present iff some broadcast error occurred. -/
theorem batch_tx_stops_at_first_failure
    (broadcastRes : Nat → Except BitcoinRpcError Nat) (insertOk : Nat → Bool)
    (txs : List TaggedTx) :
    (∀ i e, i < txs.length →
        (∀ j, j < i → ∃ c, broadcastRes j = .ok c) →
        (∀ j, j < i → insertOk j = true) →
        broadcastRes i = .error e →
        ∃ resp, batch_tx broadcastRes insertOk txs = .ok resp ∧
          resp.sent.length = i + 1 ∧
          (∀ j, j < i → ∃ r, resp.sent.get? j = some r ∧ r.error = none) ∧
          (∃ r m, resp.sent.get? i = some r ∧ r.error = some m ∧
            (∀ rpc, e = .Rpc rpc →
              m.lookup "rpc_code" = some (toString rpc.code) ∧
              m.lookup "message" = some rpc.message)) ∧
          resp.raw = some ((txs.take (i + 1)).map (fun t => t.raw))) ∧
    ((∀ j, j < txs.length → ∃ c, broadcastRes j = .ok c) →
        (∀ j, j < txs.length → insertOk j = true) →
        ∃ resp, batch_tx broadcastRes insertOk txs = .ok resp ∧
          resp.sent.length = txs.length ∧
          (∀ j, j < txs.length → ∃ r, resp.sent.get? j = some r ∧ r.error = none) ∧
          resp.raw = none) := by
  constructor
  · intro i e hi hok hins herr
    have hrun := batch_go_fail_at broadcastRes insertOk txs i hi 0 [] [] false e
      (fun j hj => by simpa using hok j hj)
      (fun j hj => by simpa using hins j hj)
      (by simpa using herr)
    refine ⟨_, hrun, ?_, ?_, ?_, ?_⟩
    · simp only [List.nil_append, List.length_append, List.length_map,
        List.length_take, List.length_singleton]
      omega
    · intro j hj
      have hjlen : j < ((txs.take i).map
          (fun t => (⟨t.txid, t.tags, none⟩ : TxResponse))).length := by
        simp only [List.length_map, List.length_take]
        omega
      refine ⟨⟨(txs.get ⟨j, by omega⟩).txid, (txs.get ⟨j, by omega⟩).tags, none⟩,
        ?_, rfl⟩
      simp only [List.nil_append]
      rw [List.get?_append hjlen, List.get?_map,
        List.get?_take hj, List.get?_eq_get (by omega : j < txs.length)]
      rfl
    · refine ⟨⟨(txs.get ⟨i, hi⟩).txid, (txs.get ⟨i, hi⟩).tags,
          some (batchErrorData ((txs.get ⟨i, hi⟩).tags.contains TransactionTag.Bid) e)⟩,
        batchErrorData ((txs.get ⟨i, hi⟩).tags.contains TransactionTag.Bid) e,
        ?_, rfl, ?_⟩
      · have hlen : ((txs.take i).map
            (fun t => (⟨t.txid, t.tags, none⟩ : TxResponse))).length = i := by
          simp only [List.length_map, List.length_take]
          omega
        simp only [List.nil_append]
        rw [List.get?_append_right (by omega), hlen]
        simp
      · intro rpc hrpc
        subst hrpc
        exact batchErrorData_rpc_fields _ rpc
    · simp
  · intro hok hins
    have hrun := batch_go_all_ok broadcastRes insertOk txs 0 [] [] false
      (fun j hj => by simpa using hok j hj)
      (fun j hj => by simpa using hins j hj)
    refine ⟨_, hrun, by simp, ?_, by simp⟩
    intro j hj
    refine ⟨⟨(txs.get ⟨j, hj⟩).txid, (txs.get ⟨j, hj⟩).tags, none⟩, ?_, rfl⟩
    simp only [List.nil_append]
    rw [List.get?_map, List.get?_eq_get hj]
    rfl

/-- Witness for C2's theorem: a two-transaction batch whose second broadcast
is rejected yields a response with both results, an error map only on the
second (carrying `rpc_code` and `message`), and the raw bundle of both
transactions. -/
theorem batch_tx_stops_at_first_failure_witness :
    ∃ resp, batch_tx batchBroadcastW (fun _ => true) batchTxsW = .ok resp ∧
      resp.sent.length = 1 + 1 ∧
      (∀ j, j < 1 → ∃ r, resp.sent.get? j = some r ∧ r.error = none) ∧
      (∃ r m, resp.sent.get? 1 = some r ∧ r.error = some m ∧
        (∀ rpc, (BitcoinRpcError.Rpc ⟨-26, "txn-mempool-conflict"⟩) = .Rpc rpc →
          m.lookup "rpc_code" = some (toString rpc.code) ∧
          m.lookup "message" = some rpc.message)) ∧
      resp.raw = some ((batchTxsW.take (1 + 1)).map (fun t => t.raw)) :=
  (batch_tx_stops_at_first_failure batchBroadcastW (fun _ => true) batchTxsW).1
    1 (.Rpc ⟨-26, "txn-mempool-conflict"⟩) (by decide)
    (fun j hj => ⟨0, by
      have : j = 0 := by omega
      subst this
      rfl⟩)
    (fun j _ => rfl)
    rfl

/-- C7: `resolve` tries the three recipient forms in order with first match
winning: a raw bitcoin address (failing with "recipient must be a space
address" when `require_space_address`, otherwise checked against the
configured network), then a space address, then a space name whose
space-hash is looked up in the state snapshot; an unknown space name yields
`Ok(None)` (not an error), a known one yields the address synthesized from
its `script_pubkey`, and a string matching none of the three forms is an
error. -/
theorem resolve_order_spec (env : ResolveEnv) (afs : Nat → Except String Nat)
    (recipient : String) :
    (∀ a, env.parseBitcoinAddress recipient = some a →
        resolve env afs recipient true = .error "recipient must be a space address" ∧
        (∀ c, env.requireNetwork a = .ok c →
            resolve env afs recipient false = .ok (some c)) ∧
        (∀ msg, env.requireNetwork a = .error msg →
            resolve env afs recipient false = .error msg)) ∧
    (∀ rsa s, env.parseBitcoinAddress recipient = none →
        env.parseSpaceAddress recipient = some s →
        resolve env afs recipient rsa = .ok (some s)) ∧
    (∀ rsa, env.parseBitcoinAddress recipient = none →
        env.parseSpaceAddress recipient = none →
        env.parseSName recipient = none →
        resolve env afs recipient rsa =
          .error "recipient must be a valid space name or an address") ∧
    (∀ rsa n, env.parseBitcoinAddress recipient = none →
        env.parseSpaceAddress recipient = none →
        env.parseSName recipient = some n →
        ((env.getSpaceInfo (env.spaceHash n) = .ok none →
            resolve env afs recipient rsa = .ok none) ∧
         (∀ script c, env.getSpaceInfo (env.spaceHash n) = .ok (some script) →
            afs script = .ok c →
            resolve env afs recipient rsa = .ok (some c)) ∧
         (∀ script msg, env.getSpaceInfo (env.spaceHash n) = .ok (some script) →
            afs script = .error msg →
            resolve env afs recipient rsa = .error msg))) := by
  refine ⟨?_, ?_, ?_, ?_⟩
  · intro a ha
    refine ⟨by simp [resolve, ha], ?_, ?_⟩
    · intro c hc
      simp [resolve, ha, hc]
    · intro msg hmsg
      simp [resolve, ha, hmsg]
  · intro rsa s ha hs
    simp [resolve, ha, hs]
  · intro rsa ha hs hn
    simp [resolve, ha, hs, hn]
  · intro rsa n ha hs hn
    refine ⟨?_, ?_, ?_⟩
    · intro hinfo
      simp [resolve, ha, hs, hn, hinfo]
    · intro script c hinfo hc
      simp [resolve, ha, hs, hn, hinfo, hc]
    · intro script msg hinfo hmsg
      simp [resolve, ha, hs, hn, hinfo, hmsg]

/-- Witness for C7's theorem: the known space name "known" hashes to 130,
resolves to script 7 and yields the synthesized address 1007. -/
theorem resolve_order_spec_witness :
    resolve resolveEnvW addressFromScriptW "known" false = .ok (some 1007) :=
  ((resolve_order_spec resolveEnvW addressFromScriptW "known").2.2.2
    false 30 rfl rfl rfl).2.1 7 1007 rfl rfl

/-! ### Balance lemmas -/

/-- A pointwise-stronger filter over the same list sums to no more. -/
theorem sumVal_filter_le_of_imp (l : List WalletOutput) (p q : WalletOutput → Bool)
    (h : ∀ o ∈ l, p o = true → q o = true) :
    sumVal (l.filter p) ≤ sumVal (l.filter q) := by
  induction l with
  | nil => exact le_refl _
  | cons o rest ih =>
      have ih' := ih (fun x hx hpx => h x (List.mem_cons_of_mem o hx) hpx)
      simp only [sumVal] at ih' ⊢
      rw [List.filter_cons, List.filter_cons]
      by_cases hp : p o = true
      · have hq : q o = true := h o (List.mem_cons_self o rest) hp
        simp [hp, hq]
        omega
      · have hp' : p o = false := by simpa using hp
        by_cases hq : q o = true
        · simp [hp', hq]
          omega
        · have hq' : q o = false := by simpa using hq
          simp [hp', hq']
          omega

/-- Sums over two pointwise-disjoint filters add up to the sum over their
disjunction. -/
theorem sumVal_filter_or_disjoint (l : List WalletOutput) (p q : WalletOutput → Bool)
    (h : ∀ o ∈ l, ¬(p o = true ∧ q o = true)) :
    sumVal (l.filter fun o => p o || q o) =
      sumVal (l.filter p) + sumVal (l.filter q) := by
  induction l with
  | nil => rfl
  | cons o rest ih =>
      have ih' := ih (fun x hx => h x (List.mem_cons_of_mem o hx))
      have hno := h o (List.mem_cons_self o rest)
      simp only [sumVal] at ih' ⊢
      rw [List.filter_cons, List.filter_cons, List.filter_cons]
      by_cases hp : p o = true
      · have hq : q o = false := by
          by_cases hq' : q o = true
          · exact absurd ⟨hp, hq'⟩ hno
          · simpa using hq'
        simp [hp, hq]
        omega
      · have hp' : p o = false := by simpa using hp
        by_cases hq : q o = true
        · simp [hp', hq]
          omega
        · have hq' : q o = false := by simpa using hq
          simp [hp', hq']
          omega

/-- The fold in `get_joint_balance` computes the filter-sums of confirmed
and pending coin-value outputs. -/
theorem coinoutSplit_foldl (outs : List WalletOutput) :
    ∀ (a b : Nat),
      outs.foldl
        (fun balances utxo =>
          if utxo.cls.is_confirmed then (balances.1 + utxo.value, balances.2)
          else (balances.1, balances.2 + utxo.value)) (a, b) =
      (a + sumVal (outs.filter fun o => o.cls.is_confirmed),
       b + sumVal (outs.filter fun o => !o.cls.is_confirmed)) := by
  induction outs with
  | nil => intro a b; simp [sumVal]
  | cons o rest ih =>
      intro a b
      rw [List.foldl_cons]
      by_cases hc : o.cls.is_confirmed = true
      · simp only [hc, if_true]
        rw [ih]
        rw [List.filter_cons, List.filter_cons]
        simp [hc, sumVal]
        omega
      · have hc' : o.cls.is_confirmed = false := by simpa using hc
        simp only [hc', Bool.false_eq_true, if_false]
        rw [ih]
        rw [List.filter_cons, List.filter_cons]
        simp [hc', sumVal]
        omega

/-- Writing `coinoutSplit` as a pair of filter-sums. -/
theorem coinoutSplit_eq (outs : List WalletOutput) :
    coinoutSplit outs =
      (sumVal (outs.filter fun o => o.cls.is_confirmed),
       sumVal (outs.filter fun o => !o.cls.is_confirmed)) := by
  have := coinoutSplit_foldl outs 0 0
  simpa [coinoutSplit] using this

/-- The unspent value of a wallet is partitioned by `balanceOf` into the
four classes. -/
theorem sumVal_unspent_partition (l : List WalletOutput) :
    sumVal (l.filter fun o => !o.is_spent) =
      (balanceOf l).immature + (balanceOf l).confirmed +
        (balanceOf l).trusted_pending + (balanceOf l).untrusted_pending := by
  induction l with
  | nil => rfl
  | cons o rest ih =>
      simp only [balanceOf] at ih ⊢
      rw [List.filter_cons, List.filter_cons, List.filter_cons, List.filter_cons,
        List.filter_cons]
      cases hs : o.is_spent with
      | true =>
          simp only [hs, Bool.not_true, Bool.false_and, if_false]
          exact ih
      | false =>
          simp only [hs, Bool.not_false, Bool.true_and, if_true]
          cases hcls : o.cls <;>
            simp only [hcls] <;>
            simp [sumVal, List.map_cons, List.sum_cons] <;>
            simp only [sumVal] at ih <;>
            omega

/-- C9 counterexample: a wallet holding a single confirmed space-carrying
output worth 1000 sats has `confirmed.total + unconfirmed.total = 0` (the
locked space value is excluded from both totals), while the sum over all
wallet utxos is 1000 — so the claimed equality
`confirmed.total + unconfirmed.total = Σ all wallet utxos` fails. -/
theorem joint_balance_totals_exclude_locked :
    (get_joint_balance spacesOutsW []).confirmed.total +
        (get_joint_balance spacesOutsW []).unconfirmed.total = 0 ∧
    (get_joint_balance spacesOutsW []).confirmed.locked = 1000 ∧
    sumAllUtxos spacesOutsW [] = 1000 ∧
    (get_joint_balance spacesOutsW []).confirmed.total +
        (get_joint_balance spacesOutsW []).unconfirmed.total ≠
      sumAllUtxos spacesOutsW [] := by
  refine ⟨rfl, rfl, rfl, by decide⟩

/-- C9 (amended): writing `SC` for the confirmed coin-value amount on the
spaces keychain (`coinoutSplit (coinouts _).1`), and provided no coin-value
output on the spaces keychain is an immature coinbase output:
`confirmed.spendable ≤ confirmed.total`;
`confirmed.locked + SC` equals the spaces keychain's confirmed balance; and
`confirmed.total + unconfirmed.total` equals the sum over all wallet utxos
*minus the locked amounts*, i.e. totals plus `confirmed.locked +
unconfirmed.locked` equal the sum over all wallet utxos. -/
theorem get_joint_balance_spec (spacesOuts coinsOuts : List WalletOutput)
    (himm : ∀ o ∈ spacesOuts,
        o.keychain = KeychainKind.External → o.is_spent = false →
        o.hasSpace = false → o.cls ≠ OutClass.Immature) :
    (get_joint_balance spacesOuts coinsOuts).confirmed.spendable ≤
      (get_joint_balance spacesOuts coinsOuts).confirmed.total ∧
    (get_joint_balance spacesOuts coinsOuts).confirmed.locked +
        (coinoutSplit (coinouts spacesOuts)).1 =
      (balanceOf spacesOuts).confirmed ∧
    (get_joint_balance spacesOuts coinsOuts).confirmed.total +
        (get_joint_balance spacesOuts coinsOuts).unconfirmed.total +
        ((get_joint_balance spacesOuts coinsOuts).confirmed.locked +
          (get_joint_balance spacesOuts coinsOuts).unconfirmed.locked) =
      sumAllUtxos spacesOuts coinsOuts := by
  have hsplit := coinoutSplit_eq (coinouts spacesOuts)
  have hco : coinouts spacesOuts =
      spacesOuts.filter (fun o => !o.hasSpace &&
        (decide (o.keychain = KeychainKind.External) && !o.is_spent)) := by
    simp only [coinouts, List.filter_filter]
  have hsc_le : (coinoutSplit (coinouts spacesOuts)).1 ≤
      (balanceOf spacesOuts).confirmed := by
    rw [hsplit]
    show sumVal ((coinouts spacesOuts).filter fun o => o.cls.is_confirmed) ≤ _
    rw [hco, List.filter_filter]
    apply sumVal_filter_le_of_imp
    intro o ho hbig
    simp only [Bool.and_eq_true, decide_eq_true_eq, Bool.not_eq_true'] at hbig
    obtain ⟨hconf, hspace, hkey, hspent⟩ := hbig
    have hni := himm o ho hkey hspent hspace
    cases hcls : o.cls with
    | Immature => exact absurd hcls hni
    | Confirmed => simp [hspent, hcls]
    | TrustedPending => rw [hcls] at hconf; exact absurd hconf (by decide)
    | UntrustedPending => rw [hcls] at hconf; exact absurd hconf (by decide)
  have hsp_le : (coinoutSplit (coinouts spacesOuts)).2 ≤
      (balanceOf spacesOuts).trusted_pending +
        (balanceOf spacesOuts).untrusted_pending := by
    rw [hsplit]
    show sumVal ((coinouts spacesOuts).filter fun o => !o.cls.is_confirmed) ≤ _
    have hdisj : (balanceOf spacesOuts).trusted_pending +
        (balanceOf spacesOuts).untrusted_pending =
        sumVal (spacesOuts.filter fun o =>
          (!o.is_spent && decide (o.cls = OutClass.TrustedPending)) ||
          (!o.is_spent && decide (o.cls = OutClass.UntrustedPending))) := by
      rw [sumVal_filter_or_disjoint]
      · rfl
      · intro o _ hcontra
        obtain ⟨h1, h2⟩ := hcontra
        simp only [Bool.and_eq_true, decide_eq_true_eq] at h1 h2
        rw [h1.2] at h2
        exact absurd h2.2 (by decide)
    rw [hdisj, hco, List.filter_filter]
    apply sumVal_filter_le_of_imp
    intro o _ hbig
    simp only [Bool.and_eq_true, decide_eq_true_eq, Bool.not_eq_true'] at hbig
    obtain ⟨hpend, _, _, hspent⟩ := hbig
    cases hcls : o.cls with
    | Immature => rw [hcls] at hpend; exact absurd hpend (by decide)
    | Confirmed => rw [hcls] at hpend; exact absurd hpend (by decide)
    | TrustedPending => simp [hspent, hcls]
    | UntrustedPending => simp [hspent, hcls]
  have hpart_s := sumVal_unspent_partition spacesOuts
  have hpart_c := sumVal_unspent_partition coinsOuts
  refine ⟨?_, ?_, ?_⟩
  · simp only [get_joint_balance]
    omega
  · simp only [get_joint_balance]
    omega
  · simp only [get_joint_balance, sumAllUtxos]
    omega

/-- Witness for C9's theorem: the three-output spaces keychain (one locked
space, one confirmed coin-value output, one pending coin-value output) and a
one-output coins keychain; no immature coin-value output exists. -/
theorem get_joint_balance_spec_witness :
    (get_joint_balance spacesOutsW2 coinsOutsW).confirmed.spendable ≤
      (get_joint_balance spacesOutsW2 coinsOutsW).confirmed.total ∧
    (get_joint_balance spacesOutsW2 coinsOutsW).confirmed.locked +
        (coinoutSplit (coinouts spacesOutsW2)).1 =
      (balanceOf spacesOutsW2).confirmed ∧
    (get_joint_balance spacesOutsW2 coinsOutsW).confirmed.total +
        (get_joint_balance spacesOutsW2 coinsOutsW).unconfirmed.total +
        ((get_joint_balance spacesOutsW2 coinsOutsW).confirmed.locked +
          (get_joint_balance spacesOutsW2 coinsOutsW).unconfirmed.locked) =
      sumAllUtxos spacesOutsW2 coinsOutsW :=
  get_joint_balance_spec spacesOutsW2 coinsOutsW (by decide)

end Spaced

